import Mathlib

/-!
Verification of the mesh-reach packet protocol and routing engine.

The TypeScript sources are modelled shallowly:
* a JavaScript string is a `List Nat` of UTF-16 code units (what `charCodeAt`
  iterates); code-point iteration and the UTF-8 wire form are derived views;
* JavaScript numbers appearing in the protocol (timestamps, ttl, counters)
  are integers, modelled as `Int`, with the 32-bit wrap of the bitwise
  operators made explicit (`toInt32`);
* `JSON.stringify` / `JSON.parse` are modelled over a `Json` value type whose
  numerics are the integer literals this codec emits;
* `Date.now()` and `Math.random()` are threaded as explicit inputs;
* class fields become explicit state records, event emissions and storage
  calls become an explicit effect list.
-/

set_option maxRecDepth 4000

/-! ### JavaScript 32-bit integer coercion and the rolling hash -/

/-- ToInt32: reduce an integer to the signed 32-bit range, as JavaScript
bitwise operators do. -/
def toInt32 (n : Int) : Int := (n + 2147483648) % 4294967296 - 2147483648

/-- One step of the rolling hash from `hashPacket`:
`hash = ((hash << 5) - hash) + char; hash = hash & hash;`.
`<<` wraps its result to 32 bits, and `& hash` wraps again. -/
def hashStep (h : Int) (c : Nat) : Int := toInt32 (toInt32 (h * 32) - h + (c : Int))

/-- The loop of `hashPacket`, accumulator first. The JavaScript loop is
strict, so the accumulator is scrutinized at every step (which also lets the
kernel evaluate concrete hashes in constant stack). -/
def strHashAux : Int → List Nat → Int
  | h, [] => h
  | h, c :: cs =>
    match hashStep h c with
    | .ofNat m => strHashAux (.ofNat m) cs
    | .negSucc m => strHashAux (.negSucc m) cs

/-- The rolling hash of a JavaScript string (iterated by code unit, as
`charCodeAt` does in the source). -/
def strHash (s : List Nat) : Int := strHashAux 0 s

/-- Lowercase hexadecimal digit, as produced by `Number.prototype.toString(16)`. -/
def hexDigitChar (d : Nat) : Nat := if d < 10 then 48 + d else 87 + d

/-- Hex digits of a positive number, most significant first (accumulator
form; the first argument is fuel, structural so that the kernel can
evaluate it — `n` steps always suffice for `n`). -/
def natHexAux : Nat → Nat → List Nat → List Nat
  | _, 0, acc => acc
  | 0, _ + 1, acc => acc
  | fuel + 1, n + 1, acc => natHexAux fuel ((n + 1) / 16) (hexDigitChar ((n + 1) % 16) :: acc)

/-- `n.toString(16)` for a natural number. -/
def natHex (n : Nat) : List Nat := if n = 0 then [48] else natHexAux n n []

/-- `padStart(8, "0")`. -/
def padStart8 (s : List Nat) : List Nat :=
  if s.length < 8 then List.replicate (8 - s.length) 48 ++ s else s

/-- `Math.abs(hash).toString(16).padStart(8, "0")`. -/
def hashTag (h : Int) : List Nat := padStart8 (natHex h.natAbs)

/-! ### Decimal literals, as JSON.stringify prints the integers of this protocol
(all of magnitude far below 10^21, where JavaScript would switch to exponent
notation). -/

/-- Decimal digits of a positive number, most significant first (fueled as
`natHexAux` is). -/
def natDecAux : Nat → Nat → List Nat → List Nat
  | _, 0, acc => acc
  | 0, _ + 1, acc => acc
  | fuel + 1, n + 1, acc => natDecAux fuel ((n + 1) / 10) ((48 + (n + 1) % 10) :: acc)

/-- Decimal form of a natural number. -/
def natDec (n : Nat) : List Nat := if n = 0 then [48] else natDecAux n n []

/-- Decimal form of an integer (minus sign when negative). -/
def intLit (n : Int) : List Nat := if n < 0 then 45 :: natDec n.natAbs else natDec n.natAbs

/-! ### UTF-16 code units, code points, and UTF-8 -/

/-- High (leading) surrogate code unit. -/
def isHigh (c : Nat) : Bool := 55296 ≤ c && c < 56320

/-- Low (trailing) surrogate code unit. -/
def isLow (c : Nat) : Bool := 56320 ≤ c && c < 57344

/-- Combine a surrogate pair into the astral code point it encodes. -/
def combinePair (h l : Nat) : Nat := 65536 + (h - 55296) * 1024 + (l - 56320)

/-- Code-point iteration of a JavaScript string (as string iteration and
`codePointAt` walk it): surrogate pairs are combined, lone surrogates are
yielded unchanged. -/
def codePoints : List Nat → List Nat
  | [] => []
  | [c] => [c]
  | c :: c2 :: rest =>
    if isHigh c && isLow c2 then combinePair c c2 :: codePoints rest
    else c :: codePoints (c2 :: rest)

/-- `TextEncoder`s view of a string as Unicode scalar values: surrogate pairs
are combined, lone surrogates are replaced with U+FFFD. -/
def utf16ToScalars : List Nat → List Nat
  | [] => []
  | [c] => [if isHigh c || isLow c then 65533 else c]
  | c :: c2 :: rest =>
    if isHigh c && isLow c2 then combinePair c c2 :: utf16ToScalars rest
    else (if isHigh c || isLow c then 65533 else c) :: utf16ToScalars (c2 :: rest)

/-- `TextDecoder`s re-expansion of scalar values into UTF-16 code units:
astral code points split into surrogate pairs. -/
def scalarsToUtf16 : List Nat → List Nat
  | [] => []
  | c :: rest =>
    if c < 65536 then c :: scalarsToUtf16 rest
    else (55296 + (c - 65536) / 1024) :: (56320 + (c - 65536) % 1024) :: scalarsToUtf16 rest

/-- UTF-8 encoding of one Unicode scalar value. -/
def utf8EncodeChar (c : Nat) : List Nat :=
  if c < 128 then [c]
  else if c < 2048 then [192 + c / 64, 128 + c % 64]
  else if c < 65536 then [224 + c / 4096, 128 + c / 64 % 64, 128 + c % 64]
  else [240 + c / 262144, 128 + c / 4096 % 64, 128 + c / 64 % 64, 128 + c % 64]

/-- UTF-8 encoding of a scalar-value sequence. -/
def utf8Encode (cs : List Nat) : List Nat := cs.flatMap utf8EncodeChar

/-- Is a byte a UTF-8 continuation byte? -/
def isCont (b : Nat) : Bool := 128 ≤ b && b < 192

/-- UTF-8 decoding to scalar values. Truncated or malformed input produces
U+FFFD; on valid input this inverts `utf8Encode` (the only case the claims
need; `TextDecoder` consumes malformed sequences in slightly larger steps,
which does not affect valid input). -/
def utf8Decode : List Nat → List Nat
  | [] => []
  | [b] => if b < 128 then [b] else [65533]
  | b :: b2 :: rest =>
    if b < 128 then b :: utf8Decode (b2 :: rest)
    else if b < 224 then
      if 194 ≤ b && isCont b2 then ((b - 192) * 64 + (b2 - 128)) :: utf8Decode rest
      else 65533 :: utf8Decode (b2 :: rest)
    else
      match rest with
      | [] => [65533]
      | b3 :: rest3 =>
        if b < 240 then
          if isCont b2 && isCont b3 then
            let c := (b - 224) * 4096 + (b2 - 128) * 64 + (b3 - 128)
            if 2048 ≤ c && (c < 55296 || 57344 ≤ c) then c :: utf8Decode rest3
            else 65533 :: utf8Decode (b2 :: b3 :: rest3)
          else 65533 :: utf8Decode (b2 :: b3 :: rest3)
        else
          match rest3 with
          | [] => [65533]
          | b4 :: rest4 =>
            if isCont b2 && isCont b3 && isCont b4 then
              let c := (b - 240) * 262144 + (b2 - 128) * 4096 + (b3 - 128) * 64 + (b4 - 128)
              if 65536 ≤ c && c < 1114112 then c :: utf8Decode rest4
              else 65533 :: utf8Decode (b2 :: b3 :: b4 :: rest4)
            else 65533 :: utf8Decode (b2 :: b3 :: b4 :: rest4)

/-! ### JSON values and JSON.stringify

`Json` covers the values this codebase serializes and parses: its numerics
are integers (the only numbers the codec emits). Rendering follows
`JSON.stringify`: no whitespace, keys in insertion order, strings escaped
with `\"` `\\` `\b` `\t` `\n` `\f` `\r`, `\u00XX` for other control
characters, and (well-formed mode) `\uXXXX` for lone surrogates, keeping
well-formed surrogate pairs literal. -/

inductive Json where
  | null : Json
  | bool : Bool → Json
  | num : Int → Json
  | str : List Nat → Json
  | arr : List Json → Json
  | obj : List (List Nat × Json) → Json

/-- The four lowercase hex digits of a `\uXXXX` escape. -/
def hex4 (c : Nat) : List Nat :=
  [hexDigitChar (c / 4096 % 16), hexDigitChar (c / 256 % 16),
   hexDigitChar (c / 16 % 16), hexDigitChar (c % 16)]

/-- `\uXXXX` escape sequence. -/
def uEsc (c : Nat) : List Nat := 92 :: 117 :: hex4 c

/-- JSON.stringify escaping of one non-surrogate code unit. -/
def escChar (c : Nat) : List Nat :=
  if c = 34 then [92, 34]
  else if c = 92 then [92, 92]
  else if c = 8 then [92, 98]
  else if c = 9 then [92, 116]
  else if c = 10 then [92, 110]
  else if c = 12 then [92, 102]
  else if c = 13 then [92, 114]
  else if c < 32 then uEsc c
  else [c]

/-- JSON.stringify escaping of a string body (between the quotes): surrogate
pairs stay literal, lone surrogates become `\uXXXX`. -/
def escapeBody : List Nat → List Nat
  | [] => []
  | [c] => if isHigh c || isLow c then uEsc c else escChar c
  | c :: c2 :: rest =>
    if isHigh c && isLow c2 then c :: c2 :: escapeBody rest
    else (if isHigh c || isLow c then uEsc c else escChar c) ++ escapeBody (c2 :: rest)

/-- A JSON string literal: quote, escaped body, quote. -/
def quoteString (s : List Nat) : List Nat := 34 :: (escapeBody s ++ [34])

mutual

/-- `JSON.stringify` on a `Json` value. -/
def jsonRender : Json → List Nat
  | .null => [110, 117, 108, 108]
  | .bool true => [116, 114, 117, 101]
  | .bool false => [102, 97, 108, 115, 101]
  | .num n => intLit n
  | .str s => quoteString s
  | .arr [] => [91, 93]
  | .arr (e :: es) => 91 :: (jsonRender e ++ renderElems es ++ [93])
  | .obj [] => [123, 125]
  | .obj (m :: ms) =>
    123 :: (quoteString m.1 ++ 58 :: jsonRender m.2 ++ renderMembers ms ++ [125])

/-- Remaining array elements, each preceded by a comma. -/
def renderElems : List Json → List Nat
  | [] => []
  | e :: es => 44 :: (jsonRender e ++ renderElems es)

/-- Remaining object members, each preceded by a comma. -/
def renderMembers : List (List Nat × Json) → List Nat
  | [] => []
  | m :: ms => 44 :: (quoteString m.1 ++ 58 :: jsonRender m.2 ++ renderMembers ms)

end

/-! ### The mesh packet (src/services/MeshProtocol.ts) -/

/-- `MeshPacket.type`. -/
inductive PType where
  | DISCOVER | ANNOUNCE | MESSAGE | ACK | RELAY | PING
deriving DecidableEq, Repr

/-- The wire string of each packet type. -/
def ptStr : PType → List Nat
  | .DISCOVER => [68, 73, 83, 67, 79, 86, 69, 82]
  | .ANNOUNCE => [65, 78, 78, 79, 85, 78, 67, 69]
  | .MESSAGE => [77, 69, 83, 83, 65, 71, 69]
  | .ACK => [65, 67, 75]
  | .RELAY => [82, 69, 76, 65, 89]
  | .PING => [80, 73, 78, 71]

/-- `MeshPacket` with the field (and JSON key) order of its construction in
`createPacket`: id, type, senderId, originalSenderId, targetId, payload,
timestamp, ttl, hops, and signature last. -/
structure MeshPacket where
  id : List Nat
  type : PType
  senderId : List Nat
  originalSenderId : List Nat
  targetId : List Nat
  payload : List Nat
  timestamp : Int
  ttl : Int
  hops : List (List Nat)
  signature : List Nat
deriving DecidableEq, Repr

/-- JSON object key strings (spelled: id, type, senderId, originalSenderId,
targetId, payload, timestamp, ttl, hops, signature). -/
def keyId : List Nat := [105, 100]
def keyType : List Nat := [116, 121, 112, 101]
def keySenderId : List Nat := [115, 101, 110, 100, 101, 114, 73, 100]
def keyOriginalSenderId : List Nat :=
  [111, 114, 105, 103, 105, 110, 97, 108, 83, 101, 110, 100, 101, 114, 73, 100]
def keyTargetId : List Nat := [116, 97, 114, 103, 101, 116, 73, 100]
def keyPayload : List Nat := [112, 97, 121, 108, 111, 97, 100]
def keyTimestamp : List Nat := [116, 105, 109, 101, 115, 116, 97, 109, 112]
def keyTtl : List Nat := [116, 116, 108]
def keyHops : List Nat := [104, 111, 112, 115]
def keySignature : List Nat := [115, 105, 103, 110, 97, 116, 117, 114, 101]

/-- The nine signature-free fields of a packet as a JSON object, in
construction order: the runtime value of the `Omit<MeshPacket, "signature">`
records built by `createPacket` and destructured by `verifyPacket`. -/
def packetJsonNoSig (p : MeshPacket) : Json :=
  .obj [(keyId, .str p.id), (keyType, .str (ptStr p.type)),
        (keySenderId, .str p.senderId),
        (keyOriginalSenderId, .str p.originalSenderId),
        (keyTargetId, .str p.targetId), (keyPayload, .str p.payload),
        (keyTimestamp, .num p.timestamp), (keyTtl, .num p.ttl),
        (keyHops, .arr (p.hops.map Json.str))]

/-- A full packet as a JSON object (signature last), the form
`JSON.stringify(packet)` serializes in `encodePacket` — and also the runtime
shape of the spread-built relay record in `prepareForRelay`, whose
`Omit` annotation does not remove the `signature` property at runtime. -/
def packetJsonWithSig (p : MeshPacket) : Json :=
  .obj [(keyId, .str p.id), (keyType, .str (ptStr p.type)),
        (keySenderId, .str p.senderId),
        (keyOriginalSenderId, .str p.originalSenderId),
        (keyTargetId, .str p.targetId), (keyPayload, .str p.payload),
        (keyTimestamp, .num p.timestamp), (keyTtl, .num p.ttl),
        (keyHops, .arr (p.hops.map Json.str)),
        (keySignature, .str p.signature)]

/-- `MAX_TTL`. -/
def MAX_TTL : Int := 10

/-- `hashPacket`: the rolling hash of `JSON.stringify` of the
signature-free packet, formatted as `Math.abs(h).toString(16).padStart(8, "0")`.
The `Omit<MeshPacket, "signature">` argument is modelled by ignoring the
`signature` field. -/
def hashPacket (p : MeshPacket) : List Nat :=
  hashTag (strHash (jsonRender (packetJsonNoSig p)))

/-- `createPacket`. `id` (built from `Date.now()` and `Math.random()` in the
source) and `now` (`Date.now()`) are explicit inputs. The optional
`originalSenderId` falls back to `senderId` when absent or empty
(`originalSenderId || senderId`). -/
def createPacket (id : List Nat) (now : Int) (type : PType)
    (senderId targetId payload : List Nat) (orig : Option (List Nat)) : MeshPacket :=
  let base : MeshPacket :=
    { id := id, type := type, senderId := senderId,
      originalSenderId :=
        match orig with
        | some o => if o = [] then senderId else o
        | none => senderId,
      targetId := targetId, payload := payload, timestamp := now,
      ttl := MAX_TTL, hops := [senderId], signature := [] }
  { base with signature := hashPacket base }

/-- `verifyPacket`: recompute the hash over everything but `signature` and
compare. -/
def verifyPacket (p : MeshPacket) : Bool := hashPacket p == p.signature

/-- `shouldRelay`. -/
def shouldRelay (packet : MeshPacket) (localDeviceId : List Nat) : Bool :=
  if packet.ttl ≤ 0 then false
  else if packet.originalSenderId == localDeviceId then false
  else if packet.hops.contains localDeviceId then false
  else packet.targetId != localDeviceId

/-- `prepareForRelay`. The source spreads the incoming packet into a record
annotated `Omit<MeshPacket, "signature">`, but the object spread copies the
old `signature` property at runtime, so the `JSON.stringify` inside
`hashPacket(newPacket)` serializes the old signature too: the new signature
is the hash of the ten-field form, signature included. -/
def prepareForRelay (packet : MeshPacket) (relayerId : List Nat) : MeshPacket :=
  let newPacket :=
    { packet with senderId := relayerId, ttl := packet.ttl - 1,
                  hops := packet.hops ++ [relayerId] }
  { newPacket with
      signature := hashTag (strHash (jsonRender (packetJsonWithSig newPacket))) }

/-- `encodePacket`: `JSON.stringify` then `TextEncoder` (UTF-16 code units
to scalar values to UTF-8 bytes). -/
def encodePacket (packet : MeshPacket) : List Nat :=
  utf8Encode (utf16ToScalars (jsonRender (packetJsonWithSig packet)))

/-! ### JSON.parse

A recursive-descent parser for the JSON this protocol exchanges. Numeric
literals are restricted to the optionally-signed integers the codec emits;
otherwise the grammar (whitespace, strings with all escape forms, nested
arrays and objects, the three literals) follows `JSON.parse`. The fuel
argument decreases on every recursive step; `jsonParse` supplies
`length + 1`, which suffices for every input (each step consumes input). -/

/-- JSON whitespace. -/
def isWsU (c : Nat) : Bool := c = 32 || c = 9 || c = 10 || c = 13

/-- Skip leading whitespace. -/
def skipWs : List Nat → List Nat
  | c :: cs => if isWsU c then skipWs cs else c :: cs
  | [] => []

/-- ASCII decimal digit. -/
def isDigitU (c : Nat) : Bool := 48 ≤ c && c ≤ 57

/-- Take the longest digit prefix. -/
def takeDigits : List Nat → List Nat × List Nat
  | c :: cs =>
    if isDigitU c then
      let p := takeDigits cs
      (c :: p.1, p.2)
    else ([], c :: cs)
  | [] => ([], [])

/-- Value of a digit string. -/
def digitsVal (ds : List Nat) : Nat := ds.foldl (fun acc c => acc * 10 + (c - 48)) 0

/-- Parse an (optionally negative) integer literal. -/
def parseIntLit : List Nat → Option (Int × List Nat)
  | [] => none
  | c :: rest =>
    if c = 45 then
      match takeDigits rest with
      | ([], _) => none
      | (ds, r) => some (-(digitsVal ds : Int), r)
    else
      match takeDigits (c :: rest) with
      | ([], _) => none
      | (ds, r) => some ((digitsVal ds : Int), r)

/-- Value of a hex digit code unit. -/
def hexValU (c : Nat) : Option Nat :=
  if 48 ≤ c && c ≤ 57 then some (c - 48)
  else if 97 ≤ c && c ≤ 102 then some (c - 87)
  else if 65 ≤ c && c ≤ 70 then some (c - 55)
  else none

/-- Single-character escapes accepted by JSON. -/
def unescapeU (c : Nat) : Option Nat :=
  if c = 34 then some 34
  else if c = 92 then some 92
  else if c = 47 then some 47
  else if c = 98 then some 8
  else if c = 102 then some 12
  else if c = 110 then some 10
  else if c = 114 then some 13
  else if c = 116 then some 9
  else none

/-- Parse a string body after the opening quote; raw control characters are
rejected as JSON.parse rejects them. -/
def parseStrBody (acc : List Nat) : List Nat → Option (List Nat × List Nat)
  | [] => none
  | c :: rest =>
    if c = 34 then some (acc.reverse, rest)
    else if c = 92 then
      match rest with
      | [] => none
      | e :: rest2 =>
        if e = 117 then
          match rest2 with
          | a :: b :: c2 :: d :: rest3 =>
            match hexValU a, hexValU b, hexValU c2, hexValU d with
            | some va, some vb, some vc, some vd =>
              parseStrBody ((((va * 16 + vb) * 16 + vc) * 16 + vd) :: acc) rest3
            | _, _, _, _ => none
          | _ => none
        else
          match unescapeU e with
          | some ch => parseStrBody (ch :: acc) rest2
          | none => none
    else if c < 32 then none
    else parseStrBody (c :: acc) rest

mutual

/-- Parse one JSON value (leading whitespace allowed). -/
def parseVal : Nat → List Nat → Option (Json × List Nat)
  | 0, _ => none
  | fuel + 1, s =>
    match skipWs s with
    | [] => none
    | c :: rest =>
      if c = 110 then
        match rest with
        | 117 :: 108 :: 108 :: r => some (.null, r)
        | _ => none
      else if c = 116 then
        match rest with
        | 114 :: 117 :: 101 :: r => some (.bool true, r)
        | _ => none
      else if c = 102 then
        match rest with
        | 97 :: 108 :: 115 :: 101 :: r => some (.bool false, r)
        | _ => none
      else if c = 34 then
        match parseStrBody [] rest with
        | some (x, r) => some (.str x, r)
        | none => none
      else if c = 91 then
        match skipWs rest with
        | [] => none
        | c2 :: r2 =>
          if c2 = 93 then some (.arr [], r2)
          else
            match parseVal fuel (c2 :: r2) with
            | some (e, r3) =>
              match parseElems fuel r3 with
              | some (es, r4) => some (.arr (e :: es), r4)
              | none => none
            | none => none
      else if c = 123 then
        match skipWs rest with
        | [] => none
        | c2 :: r2 =>
          if c2 = 125 then some (.obj [], r2)
          else
            match parseMember fuel (c2 :: r2) with
            | some (m, r3) =>
              match parseMembersTail fuel r3 with
              | some (ms, r4) => some (.obj (m :: ms), r4)
              | none => none
            | none => none
      else if c = 45 ∨ isDigitU c then
        match parseIntLit (c :: rest) with
        | some (n, r) => some (.num n, r)
        | none => none
      else none

/-- Parse a comma-separated element tail up to the closing bracket. -/
def parseElems : Nat → List Nat → Option (List Json × List Nat)
  | 0, _ => none
  | fuel + 1, s =>
    match skipWs s with
    | [] => none
    | c :: rest =>
      if c = 93 then some ([], rest)
      else if c = 44 then
        match parseVal fuel rest with
        | some (e, r2) =>
          match parseElems fuel r2 with
          | some (es, r3) => some (e :: es, r3)
          | none => none
        | none => none
      else none

/-- Parse one `"key": value` member (the key quote not yet consumed). -/
def parseMember : Nat → List Nat → Option ((List Nat × Json) × List Nat)
  | 0, _ => none
  | fuel + 1, s =>
    match skipWs s with
    | [] => none
    | c :: rest =>
      if c = 34 then
        match parseStrBody [] rest with
        | some (k, r2) =>
          (match skipWs r2 with
           | [] => none
           | c2 :: r3 =>
             if c2 = 58 then
               match parseVal fuel r3 with
               | some (v, r4) => some ((k, v), r4)
               | none => none
             else none)
        | none => none
      else none

/-- Parse a comma-separated member tail up to the closing brace. -/
def parseMembersTail : Nat → List Nat → Option (List (List Nat × Json) × List Nat)
  | 0, _ => none
  | fuel + 1, s =>
    match skipWs s with
    | [] => none
    | c :: rest =>
      if c = 125 then some ([], rest)
      else if c = 44 then
        match parseMember fuel rest with
        | some (m, r2) =>
          match parseMembersTail fuel r2 with
          | some (ms, r3) => some (m :: ms, r3)
          | none => none
        | none => none
      else none

end

/-- `JSON.parse`: a full parse of the input (trailing whitespace allowed). -/
def jsonParse (s : List Nat) : Option Json :=
  match parseVal (s.length + 1) s with
  | some (v, rest) => if skipWs rest = [] then some v else none
  | none => none

/-! ### Reading a packet back out of JSON (the unchecked `as MeshPacket` cast) -/

/-- Last-occurrence association lookup: on an object built by `JSON.parse`,
a duplicated key holds the last value. -/
def lookupLast (ms : List (List Nat × Json)) (k : List Nat) : Option Json :=
  ms.foldl (fun acc m => if m.1 = k then some m.2 else acc) none

/-- A JSON string value. -/
def jstrOfJson : Json → Option (List Nat)
  | .str s => some s
  | _ => none

/-- A JSON integer value. -/
def intOfJson : Json → Option Int
  | .num n => some n
  | _ => none

/-- A JSON array of strings. -/
def strListOfJson : Json → Option (List (List Nat))
  | .arr es => es.mapM jstrOfJson
  | _ => none

/-- The packet type named by a wire string. -/
def ptOfStr (s : List Nat) : Option PType :=
  if s = ptStr .DISCOVER then some .DISCOVER
  else if s = ptStr .ANNOUNCE then some .ANNOUNCE
  else if s = ptStr .MESSAGE then some .MESSAGE
  else if s = ptStr .ACK then some .ACK
  else if s = ptStr .RELAY then some .RELAY
  else if s = ptStr .PING then some .PING
  else none

/-- Materialize the unchecked `JSON.parse(json) as MeshPacket` cast as the
extraction of the ten packet fields; it succeeds exactly on packet-shaped
JSON (the TypeScript cast itself never checks, but every input the claims
quantify over is packet-shaped). -/
def packetOfJson : Json → Option MeshPacket
  | .obj ms => do
    let i ← (lookupLast ms keyId).bind jstrOfJson
    let ty ← ((lookupLast ms keyType).bind jstrOfJson).bind ptOfStr
    let snd ← (lookupLast ms keySenderId).bind jstrOfJson
    let org ← (lookupLast ms keyOriginalSenderId).bind jstrOfJson
    let tgt ← (lookupLast ms keyTargetId).bind jstrOfJson
    let pl ← (lookupLast ms keyPayload).bind jstrOfJson
    let ts ← (lookupLast ms keyTimestamp).bind intOfJson
    let tl ← (lookupLast ms keyTtl).bind intOfJson
    let hp ← (lookupLast ms keyHops).bind strListOfJson
    let sg ← (lookupLast ms keySignature).bind jstrOfJson
    some { id := i, type := ty, senderId := snd, originalSenderId := org,
           targetId := tgt, payload := pl, timestamp := ts, ttl := tl,
           hops := hp, signature := sg }
  | _ => none

/-- `decodePacket`: `TextDecoder` (UTF-8 bytes to code units) then
`JSON.parse`, with the cast materialized by `packetOfJson`; any structural
failure is caught and yields `null` (`none`). -/
def decodePacket (buffer : List Nat) : Option MeshPacket :=
  match jsonParse (scalarsToUtf16 (utf8Decode buffer)) with
  | some j => packetOfJson j
  | none => none

/-! ### The reference rolling hash of the specification (section 4.1)

Modelled from the spec: start `h = 0`; for each code point `c` of the
canonical string form, `h = ((h << 5) - h) + c`, then mask to signed 32-bit;
final tag is the absolute value, lowercase hex, zero-padded to 8 characters.
The canonical string form is the serialized packet with the `signature`
field absent, fields in construction order. -/

/-- The canonical string form (shared by the source hash and the spec hash). -/
def specCanonicalForm (p : MeshPacket) : List Nat := jsonRender (packetJsonNoSig p)

/-- One step of the spec hash: compute `((h << 5) - h) + c` exactly, then
mask to signed 32 bits. -/
def specHashStep (h : Int) (c : Nat) : Int := toInt32 (h * 32 - h + (c : Int))

/-- The spec hash loop, `h = 0` start (strict in the accumulator, like
`strHashAux`, so that the kernel can evaluate it; proved equal to the plain
fold below). -/
def specFold : Int → List Nat → Int
  | h, [] => h
  | h, c :: cs =>
    match specHashStep h c with
    | .ofNat m => specFold (.ofNat m) cs
    | .negSucc m => specFold (.negSucc m) cs

/-- The reference tag of the spec, iterating the canonical form by CODE
POINT as the spec sentence says. -/
def specReferenceTag (p : MeshPacket) : List Nat :=
  hashTag (specFold 0 (codePoints (specCanonicalForm p)))

/-- The reference tag amended to iterate by UTF-16 CODE UNIT (what
`charCodeAt` yields). -/
def unitReferenceTag (p : MeshPacket) : List Nat :=
  hashTag (specFold 0 (specCanonicalForm p))

/-! ### Data model records (src/types/mesh.ts)

Only the fields the modelled services materialize are carried
(`avatar`, `status`, `unreadCount`, `lastMessage*`, `retryCount`,
`replyTo` and the message `type` tag never appear in these code paths).
Optional TypeScript fields are `Option`s: `none` is an absent property,
which an object spread does not override. -/

/-- `MeshMessage.status`. -/
inductive MsgStatus where
  | sending | sent | delivered | read | failed | queued
deriving DecidableEq, Repr

/-- `MeshMessage`. -/
structure MeshMessage where
  id : List Nat
  content : List Nat
  senderId : List Nat
  receiverId : List Nat
  timestamp : Int
  hops : List (List Nat)
  status : MsgStatus
deriving DecidableEq, Repr

/-- `MeshDevice` (the `type` field is the device-kind wire string, e.g.
`phone`). -/
structure MeshDevice where
  id : List Nat
  name : List Nat
  signalStrength : Int
  distance : Int
  angle : Int
  isConnected : Bool
  lastSeen : Int
  type : List Nat
  connectionType : Option (List Nat)
  bluetoothEnabled : Option Bool
  isOnline : Option Bool
  isTyping : Option Bool
  isSelf : Option Bool
deriving DecidableEq, Repr

/-- The wildcard target (spelled with the asterisk character). -/
def star : List Nat := [42]

/-- The default device-kind string (spelled: phone). -/
def strPhone : List Nat := [112, 104, 111, 110, 101]

/-- The generic-name prefix (spelled: Device-). -/
def strDevicePrefix : List Nat := [68, 101, 118, 105, 99, 101, 45]

/-! ### Ordered-map helpers

JavaScript `Map` preserves insertion order; `set` of an existing key keeps
its position, `set` of a new key appends. -/

/-- `Map.get`. -/
def assocGet {V : Type} (ms : List (List Nat × V)) (k : List Nat) : Option V :=
  match ms with
  | [] => none
  | m :: rest => if m.1 = k then some m.2 else assocGet rest k

/-- `Map.set`. -/
def assocSet {V : Type} (ms : List (List Nat × V)) (k : List Nat) (v : V) :
    List (List Nat × V) :=
  match ms with
  | [] => [(k, v)]
  | m :: rest => if m.1 = k then (k, v) :: rest else m :: assocSet rest k v

/-- `Map.delete`. -/
def assocDelete {V : Type} (ms : List (List Nat × V)) (k : List Nat) :
    List (List Nat × V) :=
  match ms with
  | [] => []
  | m :: rest => if m.1 = k then rest else m :: assocDelete rest k

/-! ### The routing engine (src/services/MultiTransportMesh.ts)

Event emissions and transport I/O become an effect list; `Date.now()`,
`Math.random() * 360` and the fresh ACK packet id are an explicit
environment. The notification path (`showMessageNotification`) is a no-op
off the native platform and is modelled on the web platform. Retry timers
are modelled by their firing function (`ackTimerFire`). -/

/-- An observable effect of the routing engine: an event emission or a
transport broadcast. -/
inductive MTEffect where
  | broadcast : MeshPacket → MTEffect
  | messageReceived : MeshMessage → MTEffect
  | messageStatusChanged : List Nat → MsgStatus → MTEffect
  | deviceDiscovered : MeshDevice → MTEffect
  | deviceUpdated : MeshDevice → MTEffect
  | deviceLost : List Nat → MTEffect
  | persistMessage : MeshMessage → Bool → MTEffect
  | queryMessageExists : List Nat → MTEffect
deriving DecidableEq, Repr

/-- A pending-retry entry (`pendingAcks` value); the timer handle is
modelled by `ackTimerFire` below. -/
structure PendingEntry where
  packet : MeshPacket
  retries : Nat
deriving DecidableEq, Repr

/-- The mutable fields of `MultiTransportMeshService` the modelled paths
touch. -/
structure MTState where
  localDeviceId : List Nat
  processedPackets : List (List Nat)
  discoveredDevices : List (List Nat × MeshDevice)
  peers : List (List Nat)
  messageQueue : List (List Nat × MeshPacket)
  pendingAcks : List (List Nat × PendingEntry)
deriving DecidableEq, Repr

/-- Explicit inputs of one ingress call: `Date.now()`, the fresh id the ACK
`createPacket` call would draw, and `Math.random() * 360`. -/
structure MTEnv where
  now : Int
  ackId : List Nat
  angle : Int
deriving DecidableEq, Repr

/-- `sendAck`: build an ACK via `createPacket` (payload is the original
packet id, target is its origin) and broadcast it. -/
def sendAck (env : MTEnv) (localId : List Nat) (originalPacket : MeshPacket) : MTEffect :=
  .broadcast
    (createPacket env.ackId env.now .ACK localId originalPacket.originalSenderId
      originalPacket.id none)

/-- `handleMessagePacket`: deliver when targeted at us (or the wildcard),
emit `onMessageReceived`, send the ACK. -/
def handleMessagePacket (env : MTEnv) (s : MTState) (packet : MeshPacket) :
    MTState × List MTEffect :=
  if packet.targetId = s.localDeviceId ∨ packet.targetId = star then
    let message : MeshMessage :=
      { id := packet.id, content := packet.payload,
        senderId := packet.originalSenderId, receiverId := s.localDeviceId,
        timestamp := packet.timestamp, hops := packet.hops, status := .delivered }
    (s, [.messageReceived message, sendAck env s.localDeviceId packet])
  else (s, [])

/-- `handleAckPacket`: correlate by the ACK payload, cancel the retry entry,
emit `onMessageStatusChanged(id, delivered)`. -/
def handleAckPacket (s : MTState) (packet : MeshPacket) : MTState × List MTEffect :=
  let originalId := packet.payload
  match assocGet s.pendingAcks originalId with
  | some _ =>
    ({ s with pendingAcks := assocDelete s.pendingAcks originalId,
              messageQueue := assocDelete s.messageQueue originalId },
     [.messageStatusChanged originalId .delivered])
  | none => (s, [])

/-- Choose a nonempty string field, else the fallback (JavaScript
`x || fallback` on a string-valued field; a missing or non-string field also
falls back). -/
def strFieldOr (j : Json) (k : List Nat) (fallback : List Nat) : List Nat :=
  match j with
  | .obj ms =>
    match lookupLast ms k with
    | some (.str s) => if s = [] then fallback else s
    | _ => fallback
  | _ => fallback

/-- Choose a nonzero numeric field, else the fallback (`x || fallback` on a
number-valued field). -/
def numFieldOr (j : Json) (k : List Nat) (fallback : Int) : Int :=
  match j with
  | .obj ms =>
    match lookupLast ms k with
    | some (.num n) => if n = 0 then fallback else n
    | _ => fallback
  | _ => fallback

/-- Pick the overriding value of a spread: the new property when present. -/
def mergeOpt {A : Type} (newer older : Option A) : Option A :=
  match newer with
  | some v => some v
  | none => older

/-- The merge in `addDiscoveredDevice`: spread the new observation over the
old record, then take the max signal strength, the disjunction of
`isConnected`, and a fresh `lastSeen`. -/
def mergeDevices (now : Int) (existing device : MeshDevice) : MeshDevice :=
  { id := device.id, name := device.name,
    signalStrength := max existing.signalStrength device.signalStrength,
    distance := device.distance, angle := device.angle,
    isConnected := existing.isConnected || device.isConnected,
    lastSeen := now, type := device.type,
    connectionType := mergeOpt device.connectionType existing.connectionType,
    bluetoothEnabled := mergeOpt device.bluetoothEnabled existing.bluetoothEnabled,
    isOnline := mergeOpt device.isOnline existing.isOnline,
    isTyping := mergeOpt device.isTyping existing.isTyping,
    isSelf := mergeOpt device.isSelf existing.isSelf }

/-- `addDiscoveredDevice`: merge into an existing record (emitting
`onDeviceUpdated`) or insert a new one (emitting `onDeviceDiscovered`). -/
def addDiscoveredDevice (now : Int) (s : MTState) (device : MeshDevice) :
    MTState × List MTEffect :=
  match assocGet s.discoveredDevices device.id with
  | some existing =>
    let updated := mergeDevices now existing device
    ({ s with discoveredDevices := assocSet s.discoveredDevices device.id updated },
     [.deviceUpdated updated])
  | none =>
    ({ s with discoveredDevices := assocSet s.discoveredDevices device.id device },
     [.deviceDiscovered device])

/-- Key strings of the discovery payload (spelled: name, signalStrength,
distance, type). -/
def keyName : List Nat := [110, 97, 109, 101]
def keySignalStrength : List Nat :=
  [115, 105, 103, 110, 97, 108, 83, 116, 114, 101, 110, 103, 116, 104]
def keyDistance : List Nat := [100, 105, 115, 116, 97, 110, 99, 101]

/-- `handleDiscoveryPacket`: parse the self-description payload and record
the device; a parse failure (or the `null` value, whose property access
throws) is caught and dropped. -/
def handleDiscoveryPacket (env : MTEnv) (s : MTState) (packet : MeshPacket)
    (fromTransport : List Nat) : MTState × List MTEffect :=
  match jsonParse packet.payload with
  | none => (s, [])
  | some .null => (s, [])
  | some info =>
    let device : MeshDevice :=
      { id := packet.originalSenderId,
        name := strFieldOr info keyName
          (strDevicePrefix ++ packet.originalSenderId.take 4),
        signalStrength := numFieldOr info keySignalStrength 70,
        distance := numFieldOr info keyDistance 10,
        angle := env.angle, isConnected := true, lastSeen := env.now,
        type := strFieldOr info keyType strPhone,
        connectionType := some fromTransport, bluetoothEnabled := some true,
        isOnline := none, isTyping := none, isSelf := none }
    addDiscoveredDevice env.now s device

/-- `handlePingPacket`: refresh `lastSeen` of the sending device. -/
def handlePingPacket (env : MTEnv) (s : MTState) (packet : MeshPacket) :
    MTState × List MTEffect :=
  match assocGet s.discoveredDevices packet.senderId with
  | some device =>
    let updated := { device with lastSeen := env.now, isConnected := true }
    ({ s with discoveredDevices := assocSet s.discoveredDevices packet.senderId updated },
     [.deviceUpdated updated])
  | none => (s, [])

/-- `handleReceivedPacket`: verify, drop duplicates, record in the seen set,
dispatch by type, then relay when `shouldRelay` says so. -/
def handleReceivedPacket (env : MTEnv) (s : MTState) (packet : MeshPacket)
    (fromTransport : List Nat) : MTState × List MTEffect :=
  if verifyPacket packet = false then (s, [])
  else if packet.id ∈ s.processedPackets then (s, [])
  else
    let s1 := { s with processedPackets := s.processedPackets ++ [packet.id] }
    let dispatched :=
      match packet.type with
      | .MESSAGE => handleMessagePacket env s1 packet
      | .ACK => handleAckPacket s1 packet
      | .DISCOVER => handleDiscoveryPacket env s1 packet fromTransport
      | .ANNOUNCE => handleDiscoveryPacket env s1 packet fromTransport
      | .PING => handlePingPacket env s1 packet
      | .RELAY => (s1, [])
    let relayed :=
      if shouldRelay packet dispatched.1.localDeviceId then
        [MTEffect.broadcast (prepareForRelay packet dispatched.1.localDeviceId)]
      else []
    (dispatched.1, dispatched.2 ++ relayed)

/-- One ingress call: the packet, the transport it arrived on, the
environment of the call. -/
structure RecvCall where
  packet : MeshPacket
  transport : List Nat
  env : MTEnv
deriving DecidableEq, Repr

/-- Run a sequence of ingress calls, concatenating their effects. -/
def processAll (s : MTState) : List RecvCall → MTState × List MTEffect
  | [] => (s, [])
  | c :: cs =>
    let step := handleReceivedPacket c.env s c.packet c.transport
    let rest := processAll step.1 cs
    (rest.1, step.2 ++ rest.2)

/-- `sendMessage`: build the MESSAGE packet, queue it, broadcast, and
register the pending-retry entry with `retries = 0` (the fresh id and
`Date.now()` are explicit inputs; the backoff timer is modelled by
`ackTimerFire`). -/
def sendMessage (id : List Nat) (now : Int) (s : MTState)
    (content receiverId : List Nat) : MTState × List MTEffect :=
  let packet := createPacket id now .MESSAGE s.localDeviceId receiverId content none
  ({ s with messageQueue := assocSet s.messageQueue packet.id packet,
            pendingAcks := assocSet s.pendingAcks packet.id ⟨packet, 0⟩ },
   [.broadcast packet])

/-- The firing of a `scheduleRetry` timer for a message id: if the entry is
still pending and below 20 retries, bump the count, re-broadcast, re-arm. -/
def ackTimerFire (s : MTState) (id : List Nat) : MTState × List MTEffect :=
  match assocGet s.pendingAcks id with
  | some pending =>
    if pending.retries < 20 then
      ({ s with pendingAcks :=
           assocSet s.pendingAcks id { pending with retries := pending.retries + 1 } },
       [.broadcast pending.packet])
    else (s, [])
  | none => (s, [])

/-- Increment a pending entry (the in-place `pending.retries++`). -/
def bump (e : PendingEntry) : PendingEntry := { e with retries := e.retries + 1 }

/-- Mark a device record disconnected. -/
def setDisconnected (d : MeshDevice) : MeshDevice := { d with isConnected := false }

/-- One entry of the heartbeat retry sweep `retryPendingMessages`: at 20 or
more retries, drop the entry and emit `failed`; otherwise bump the count
(mutating the entry in place) and re-broadcast. -/
def retryStep (acc : MTState × List MTEffect) (entry : List Nat × PendingEntry) :
    MTState × List MTEffect :=
  if entry.2.retries ≥ 20 then
    ({ acc.1 with pendingAcks := assocDelete acc.1.pendingAcks entry.1,
                  messageQueue := assocDelete acc.1.messageQueue entry.1 },
     acc.2 ++ [.messageStatusChanged entry.1 .failed])
  else
    ({ acc.1 with pendingAcks := assocSet acc.1.pendingAcks entry.1 (bump entry.2) },
     acc.2 ++ [.broadcast entry.2.packet])

/-- `retryPendingMessages` (MultiTransportMesh): sweep the pending-ack map. -/
def retryPendingMessages (s : MTState) : MTState × List MTEffect :=
  s.pendingAcks.foldl retryStep (s, [])

/-- `updateDeviceStatuses`: one device of the liveness sweep. Records stale
past 180 s are REMOVED from the device and peer maps with `onDeviceLost`;
records stale past 60 s are kept but marked disconnected. -/
def sweepStep (now : Int) (acc : MTState × List MTEffect)
    (entry : List Nat × MeshDevice) : MTState × List MTEffect :=
  if now - entry.2.lastSeen > 180000 then
    ({ acc.1 with discoveredDevices := assocDelete acc.1.discoveredDevices entry.1,
                  peers := acc.1.peers.erase entry.1 },
     acc.2 ++ [.deviceLost entry.1])
  else if now - entry.2.lastSeen > 60000 ∧ entry.2.isConnected then
    let updated := setDisconnected entry.2
    ({ acc.1 with discoveredDevices := assocSet acc.1.discoveredDevices entry.1 updated },
     acc.2 ++ [.deviceUpdated updated])
  else acc

/-- `updateDeviceStatuses` (the 5-second heartbeat sweep). -/
def updateDeviceStatuses (now : Int) (s : MTState) : MTState × List MTEffect :=
  s.discoveredDevices.foldl (sweepStep now) (s, [])

/-! ### LocalMeshService (src/services/LocalMeshService.ts)

The durable pending-retry queue (`offlineStorage.pendingMessages`) is the
explicit `queue` argument; storage writes become effects. `peers` maps a
peer id to its `lastSeen` timestamp (the only peer field these paths read). -/

/-- A durable pending-retry record (`PendingMessage` in OfflineStorage). -/
structure LMPending where
  id : List Nat
  message : MeshMessage
  retries : Nat
  lastAttempt : Int
deriving DecidableEq, Repr

/-- Observable effects of the LocalMesh retry and liveness passes. -/
inductive LMEffect where
  | updateMessageStatus : List Nat → MsgStatus → LMEffect
  | removeFromPendingQueue : List Nat → LMEffect
  | sendViaBroadcast : MeshMessage → LMEffect
  | deviceUpdated : MeshDevice → LMEffect
  | deviceLost : List Nat → LMEffect
deriving DecidableEq, Repr

/-- One record of `retryPendingMessages` (LocalMeshService): at 30 or more
retries mark the stored message `failed` and drop the queue entry; otherwise
resend over the broadcast channel — only when the receiving peer was seen
within 15 s — and bump the durable retry counter. -/
def lmRetryStep (now : Int) (peers : List (List Nat × Int))
    (acc : List LMPending × List LMEffect) (item : LMPending) :
    List LMPending × List LMEffect :=
  if item.retries ≥ 30 then
    (acc.1.filter (fun q => q.id ≠ item.id),
     acc.2 ++ [.updateMessageStatus item.id .failed, .removeFromPendingQueue item.id])
  else
    match assocGet peers item.message.receiverId with
    | some lastSeen =>
      if now - lastSeen < 15000 then
        (acc.1.map (fun q =>
           if q.id = item.id then
             { q with retries := q.retries + 1, lastAttempt := now }
           else q),
         acc.2 ++ [.sendViaBroadcast item.message])
      else acc
    | none => acc

/-- `retryPendingMessages` (LocalMeshService): sweep the durable queue. -/
def lmRetryPendingMessages (now : Int) (peers : List (List Nat × Int))
    (queue : List LMPending) : List LMPending × List LMEffect :=
  queue.foldl (lmRetryStep now peers) (queue, [])

/-- Mark a LocalMesh device record offline. -/
def lmSetOffline (d : MeshDevice) : MeshDevice :=
  { d with isOnline := some false, isConnected := false }

/-- One peer of `checkPeerStatus` (LocalMeshService): past 60 s the peer AND
its device record are REMOVED with `onDeviceLost`; past 15 s the record is
kept but marked offline. -/
def lmPeerStep (now : Int)
    (acc : (List (List Nat × Int) × List (List Nat × MeshDevice)) × List LMEffect)
    (peer : List Nat × Int) :
    (List (List Nat × Int) × List (List Nat × MeshDevice)) × List LMEffect :=
  let device := assocGet acc.1.2 peer.1
  if now - peer.2 > 60000 then
    match device with
    | some _ =>
      ((assocDelete acc.1.1 peer.1, assocDelete acc.1.2 peer.1),
       acc.2 ++ [.deviceLost peer.1])
    | none => ((assocDelete acc.1.1 peer.1, acc.1.2), acc.2)
  else if now - peer.2 > 15000 then
    match device with
    | some d =>
      if d.isOnline = some true then
        ((acc.1.1, assocSet acc.1.2 peer.1 (lmSetOffline d)),
         acc.2 ++ [.deviceUpdated (lmSetOffline d)])
      else acc
    | none => acc
  else acc

/-- `checkPeerStatus` (the 3-second LocalMesh liveness sweep). -/
def checkPeerStatus (now : Int) (peers : List (List Nat × Int))
    (devices : List (List Nat × MeshDevice)) :
    (List (List Nat × Int) × List (List Nat × MeshDevice)) × List LMEffect :=
  peers.foldl (lmPeerStep now) ((peers, devices), [])

/-! ### UnifiedMeshService and OfflineStorageService -/

/-- `handleDeviceLost` (UnifiedMeshService): when an underlying transport
reports a lost device, the unified registry RETAINS the record, marking it
offline and disconnected, and re-emits `onDeviceLost`. -/
def handleDeviceLost (devices : List (List Nat × MeshDevice)) (deviceId : List Nat) :
    List (List Nat × MeshDevice) × List MTEffect :=
  match assocGet devices deviceId with
  | some device =>
    (assocSet devices deviceId (lmSetOffline device), [.deviceLost deviceId])
  | none => (devices, [])

/-- `cleanupOldData` (OfflineStorageService): the explicit age-based
eviction pass — delete device records older than `maxAge` (default 7 days),
keeping the self record. -/
def cleanupOldData (now maxAge : Int) (devices : List MeshDevice) : List MeshDevice :=
  devices.filter (fun d => !(decide (d.lastSeen < now - maxAge) && !(d.isSelf = some true)))

/-! ### SmartTransportSelector (in src/services/GlobalMeshRelay.ts) -/

/-- Per-transport metrics. `failureCount` starts at 0 and is kept
non-negative by `Math.max(0, ...)`, so it is a `Nat`. -/
structure TransportMetrics where
  type : List Nat
  latency : Int
  reliability : Int
  isAvailable : Bool
  deviceCount : Int
  lastSuccess : Int
  failureCount : Nat
deriving DecidableEq, Repr

/-- `recordSuccess`: stamp `lastSuccess`, decrement `failureCount` floored
at zero, raise `reliability` by 5 capped at 100. -/
def recordSuccess (now : Int) (metric : TransportMetrics) : TransportMetrics :=
  { metric with lastSuccess := now,
                failureCount := metric.failureCount - 1,
                reliability := min 100 (metric.reliability + 5) }

/-- `recordFailure`: increment `failureCount`, drop `reliability` by 10
floored at zero. -/
def recordFailure (metric : TransportMetrics) : TransportMetrics :=
  { metric with failureCount := metric.failureCount + 1,
                reliability := max 0 (metric.reliability - 10) }

/-! ### Concrete values used by witnesses and counterexamples -/

/-- A small MESSAGE packet built by `createPacket` (id spelled a, sender AB,
target CD, payload hi, at time 5). -/
def exPacket : MeshPacket :=
  createPacket [97] 5 .MESSAGE [65, 66] [67, 68] [104, 105] none

/-- The same packet with an emoji payload: U+1F600 as the surrogate pair
D83D DE00. -/
def exEmojiPacket : MeshPacket :=
  createPacket [97] 5 .MESSAGE [65, 66] [67, 68] [55357, 56832] none

/-- `exPacket` with its signature corrupted. -/
def exBadPacket : MeshPacket := { exPacket with signature := [48] }

/-- A relaying node id (spelled N), distinct from the sender, the target and
the hop list of `exPacket`. -/
def exRelayer : List Nat := [78]

/-- An engine state whose local id is the target of `exPacket`. -/
def exState : MTState :=
  { localDeviceId := [67, 68], processedPackets := [], discoveredDevices := [],
    peers := [], messageQueue := [], pendingAcks := [] }

/-- An ingress environment (time 7, fresh ACK id spelled z). -/
def exEnv : MTEnv := { now := 7, ackId := [122], angle := 0 }

/-- A transport tag (spelled webrtc). -/
def exTransport : List Nat := [119, 101, 98, 114, 116, 99]

/-- Is an effect an `onMessageReceived` emission? -/
def isMsgReceived : MTEffect → Bool
  | .messageReceived _ => true
  | _ => false

/-- Is an effect the broadcast of a packet carrying the given id (a relay
re-emission of that packet)? -/
def isRelayOf (i : List Nat) : MTEffect → Bool
  | .broadcast q => q.id == i
  | _ => false

/-- Number of `onMessageReceived` emissions in an effect list. -/
def countMsg (l : List MTEffect) : Nat := (l.filter isMsgReceived).length

/-- Number of broadcasts of packets with the given id in an effect list. -/
def countRelay (i : List Nat) (l : List MTEffect) : Nat :=
  (l.filter (isRelayOf i)).length

/-- `exState` after `exPacket` has been processed once. -/
def exSeenState : MTState := { exState with processedPackets := [exPacket.id] }

/-- The same packet received twice (over two transports). -/
def exCalls : List RecvCall :=
  [{ packet := exPacket, transport := exTransport, env := exEnv },
   { packet := exPacket, transport := [110, 102, 99], env := exEnv }]

/-- A discovered-device record last seen at time 0. -/
def exDevice : MeshDevice :=
  { id := [68], name := [68], signalStrength := 70, distance := 10, angle := 0,
    isConnected := true, lastSeen := 0, type := strPhone,
    connectionType := some exTransport, bluetoothEnabled := some true,
    isOnline := some true, isTyping := none, isSelf := none }

/-- An engine state tracking `exDevice`. -/
def exDevState : MTState := { exState with discoveredDevices := [([68], exDevice)] }

/-- An engine state with one pending-retry entry at 20 retries. -/
def exRetryState : MTState :=
  { exState with pendingAcks := [([97], { packet := exPacket, retries := 20 })],
                 messageQueue := [([97], exPacket)] }

/-- A message stored in the LocalMesh durable pending queue. -/
def exLMMessage : MeshMessage :=
  { id := [109], content := [104], senderId := [65, 66], receiverId := [80],
    timestamp := 0, hops := [[65, 66]], status := .sent }

/-- Its queue record, already at 20 retries. -/
def exLMPending : LMPending :=
  { id := [109], message := exLMMessage, retries := 20, lastAttempt := 0 }

/-- A LocalMesh peer map where the receiver was seen 5 s ago. -/
def exPeers : List (List Nat × Int) := [([80], 95000)]

/-- The same queue record at 30 retries. -/
def exLMPending30 : LMPending := { exLMPending with retries := 30 }

/-- An engine state with one pending-retry entry at 19 retries. -/
def exRetryState19 : MTState :=
  { exState with pendingAcks := [([97], { packet := exPacket, retries := 19 })] }

/-- An ACK packet whose payload is the pending id (spelled a). -/
def exAckPacket : MeshPacket :=
  createPacket [122] 7 .ACK [67, 68] [65, 66] [97] none

/-! ### Well-formedness and fuel accounting for the codec roundtrip (claim C8) -/

/-- A JavaScript string: every UTF-16 code unit is below 0x10000 (what
`charCodeAt` can yield). -/
def WfStr (s : List Nat) : Prop := ∀ c ∈ s, c < 65536

/-- Every string field of a packet is a JavaScript string. -/
def WfPacket (p : MeshPacket) : Prop :=
  WfStr p.id ∧ WfStr p.senderId ∧ WfStr p.originalSenderId ∧ WfStr p.targetId ∧
  WfStr p.payload ∧ WfStr p.signature ∧ ∀ h ∈ p.hops, WfStr h

/-- Well-formed UTF-16: every unit is below 0x10000 and surrogate units
appear only as matched high-low pairs. -/
def wfU : List Nat → Bool
  | [] => true
  | [c] => !(isHigh c || isLow c) && decide (c < 65536)
  | c :: c2 :: rest =>
    if isHigh c then isLow c2 && wfU rest
    else !(isLow c) && decide (c < 65536) && wfU (c2 :: rest)

mutual

/-- Every string inside a JSON value is a JavaScript string. -/
def wfJson : Json → Prop
  | .null => True
  | .bool _ => True
  | .num _ => True
  | .str s => WfStr s
  | .arr es => wfElems es
  | .obj ms => wfMembers ms

/-- `wfJson` over array elements. -/
def wfElems : List Json → Prop
  | [] => True
  | e :: es => wfJson e ∧ wfElems es

/-- `wfJson` over object members, keys included. -/
def wfMembers : List (List Nat × Json) → Prop
  | [] => True
  | m :: ms => (WfStr m.1 ∧ wfJson m.2) ∧ wfMembers ms

end

mutual

/-- Recursion fuel sufficient for `parseVal` on the rendering of a value. -/
def jsonFuel : Json → Nat
  | .null => 1
  | .bool _ => 1
  | .num _ => 1
  | .str _ => 1
  | .arr [] => 1
  | .arr (e :: es) => 1 + max (jsonFuel e) (elemsFuel es)
  | .obj [] => 1
  | .obj (m :: ms) => 1 + max (1 + jsonFuel m.2) (membersFuel ms)

/-- Fuel sufficient for `parseElems` on a rendered element tail. -/
def elemsFuel : List Json → Nat
  | [] => 1
  | e :: es => 1 + max (jsonFuel e) (elemsFuel es)

/-- Fuel sufficient for `parseMembersTail` on a rendered member tail. -/
def membersFuel : List (List Nat × Json) → Nat
  | [] => 1
  | m :: ms => 1 + max (1 + jsonFuel m.2) (membersFuel ms)

end

/-- The remainder does not begin with a decimal digit, so a numeric literal
before it ends exactly where its rendering ended. -/
def notDigitStart : List Nat → Prop
  | [] => True
  | c :: _ => isDigitU c = false

/-! # Theorems -/

/-! ### C3: the relay predicate -/

/-- C3: `shouldRelay(p, L)` is true iff `p.ttl > 0`, `p.originalSenderId ≠ L`,
`L ∉ p.hops`, and `p.targetId ≠ L` all hold. -/
theorem C3_shouldRelay_iff (p : MeshPacket) (L : List Nat) :
    shouldRelay p L = true ↔
      0 < p.ttl ∧ p.originalSenderId ≠ L ∧ L ∉ p.hops ∧ p.targetId ≠ L := by
  unfold shouldRelay
  split_ifs with h1 h2 h3
  · simp; omega
  · simp_all
  · constructor
    · intro h; exact absurd h (by simp)
    · rintro ⟨-, -, hmem, -⟩
      exact absurd (by simpa using h3) hmem
  · constructor
    · intro h
      refine ⟨by omega, by simpa using h2, ?_, by simpa using h⟩
      intro hmem
      exact h3 (by simpa using hmem)
    · rintro ⟨-, -, -, h4⟩
      simpa using h4

/-! ### C10: transport metric updates -/

/-- C10: `recordSuccess` stamps `lastSuccess`, decrements `failureCount` by
one floored at zero, and raises `reliability` by 5 capped at 100;
`recordFailure` increments `failureCount` and drops `reliability` by 10
floored at zero, so one success erases exactly one failure increment. -/
theorem C10_recordSuccess_spec (now : Int) (m : TransportMetrics) :
    (recordSuccess now m).lastSuccess = now ∧
    ((recordSuccess now m).failureCount : Int) = max 0 ((m.failureCount : Int) - 1) ∧
    (recordSuccess now m).reliability = min 100 (m.reliability + 5) ∧
    (recordFailure m).failureCount = m.failureCount + 1 ∧
    (recordFailure m).reliability = max 0 (m.reliability - 10) ∧
    (recordSuccess now (recordFailure m)).failureCount = m.failureCount := by
  refine ⟨rfl, ?_, rfl, rfl, rfl, ?_⟩
  · simp [recordSuccess]; omega
  · simp [recordSuccess, recordFailure]

/-! ### C4: the relay signature bug

`prepareForRelay` annotates its spread-built record `Omit<MeshPacket,
"signature">`, but the spread copies the old `signature` property at
runtime, so the recomputed digest hashes the ten-field serialization while
`verifyPacket` recomputes over nine fields: every relayed packet fails
verification at its receivers and is dropped by `handleReceivedPacket`. -/

/-- C4: on a concrete relayable, correctly signed packet, the relay copy
produced by `prepareForRelay` does NOT verify. -/
theorem C4_relay_signature_bug :
    shouldRelay exPacket exRelayer = true ∧
    verifyPacket exPacket = true ∧
    verifyPacket (prepareForRelay exPacket exRelayer) = false := by
  refine ⟨by decide, by decide, by decide⟩

/-! ### C6: invalid packets are dropped with no observable effect -/

/-- C6: when `verifyPacket` fails, `handleReceivedPacket` returns the state
unchanged (in particular the seen set gains nothing) and emits no effect. -/
theorem C6_invalid_packet_dropped (env : MTEnv) (s : MTState) (p : MeshPacket)
    (t : List Nat) (h : verifyPacket p = false) :
    handleReceivedPacket env s p t = (s, []) := by
  simp [handleReceivedPacket, h]

/-- C6 applied at a concrete corrupted packet. -/
theorem C6_invalid_packet_dropped_witness :
    verifyPacket exBadPacket = false ∧
    handleReceivedPacket exEnv exState exBadPacket exTransport = (exState, []) :=
  ⟨by decide, C6_invalid_packet_dropped exEnv exState exBadPacket exTransport (by decide)⟩

/-! ### C1: the integrity digest against the reference rolling hash -/

/-- Folding one more `toInt32` into an already-reduced summand does not
change the 32-bit reduction. -/
theorem toInt32_absorb (a b : Int) : toInt32 (toInt32 a + b) = toInt32 (a + b) := by
  unfold toInt32
  omega

/-- The two formulations of one hash step agree: reducing `h << 5` before
the subtraction and the final mask equals computing exactly and masking
once. -/
theorem hashStep_eq_specHashStep (h : Int) (c : Nat) :
    hashStep h c = specHashStep h c := by
  unfold hashStep specHashStep
  have := toInt32_absorb (h * 32) (-h + (c : Int))
  calc toInt32 (toInt32 (h * 32) - h + (c : Int))
      = toInt32 (toInt32 (h * 32) + (-h + (c : Int))) := by ring_nf
    _ = toInt32 (h * 32 + (-h + (c : Int))) := toInt32_absorb _ _
    _ = toInt32 (h * 32 - h + (c : Int)) := by ring_nf

/-- The strict hash loop is the fold of the spec step. -/
theorem strHashAux_eq_foldl (l : List Nat) : ∀ h : Int,
    strHashAux h l = l.foldl specHashStep h := by
  induction l with
  | nil => intro h; rfl
  | cons c cs ih =>
    intro h
    have hstep : strHashAux h (c :: cs) = strHashAux (hashStep h c) cs := by
      cases hv : hashStep h c <;> simp [strHashAux, hv]
    rw [hstep, ih, List.foldl_cons, hashStep_eq_specHashStep]

/-- The strict spec loop is the same fold. -/
theorem specFold_eq_foldl (l : List Nat) : ∀ h : Int,
    specFold h l = l.foldl specHashStep h := by
  induction l with
  | nil => intro h; rfl
  | cons c cs ih =>
    intro h
    have hstep : specFold h (c :: cs) = specFold (specHashStep h c) cs := by
      cases hv : specHashStep h c <;> simp [specFold, hv]
    rw [hstep, ih, List.foldl_cons]

/-- C1 (amended: the spec hash iterates UTF-16 code units, not code
points): `hashPacket` equals the reference rolling hash of the canonical
serialization taken code unit by code unit, and `verifyPacket` accepts
every packet `createPacket` produces. -/
theorem C1_hash_matches_code_unit_reference :
    (∀ p : MeshPacket, hashPacket p = unitReferenceTag p) ∧
    ∀ (id : List Nat) (now : Int) (type : PType)
      (senderId targetId payload : List Nat) (orig : Option (List Nat)),
      verifyPacket (createPacket id now type senderId targetId payload orig) = true := by
  constructor
  · intro p
    unfold hashPacket unitReferenceTag specCanonicalForm strHash
    rw [strHashAux_eq_foldl, specFold_eq_foldl]
  · intro id now type senderId targetId payload orig
    simp only [verifyPacket, createPacket]
    exact beq_self_eq_true _

/-- C1 counterexample: for a packet whose payload is the emoji U+1F600 (the
surrogate pair D83D DE00), `hashPacket` — which iterates `charCodeAt` code
units — differs from the reference hash taken over code points as the spec
sentence words it. -/
theorem C1_code_point_hash_counterexample :
    hashPacket exEmojiPacket ≠ specReferenceTag exEmojiPacket := by decide

/-! ### C2: delivery of a fresh MESSAGE packet -/

/-- C2 (amended: the packet path synthesizes, emits and ACKs, with the
in-memory seen set as its only duplicate gate; it does not write the durable
store and does not consult `messageExists`): a verified, unseen MESSAGE
packet targeted at the local id or the wildcard makes `handleReceivedPacket`
record the id, emit exactly the synthesized Message (id, payload as content,
originalSenderId as sender, status delivered) and the ACK broadcast (payload
the packet id, target the origin, full TTL), plus the relay copy when
`shouldRelay` holds — and nothing else: no persistence effect and no
`messageExists` query occur. -/
theorem C2_message_delivery (env : MTEnv) (s : MTState) (p : MeshPacket)
    (t : List Nat) (hv : verifyPacket p = true)
    (hnew : p.id ∉ s.processedPackets) (hty : p.type = .MESSAGE)
    (htgt : p.targetId = s.localDeviceId ∨ p.targetId = star) :
    handleReceivedPacket env s p t =
      ({ s with processedPackets := s.processedPackets ++ [p.id] },
       [.messageReceived
          { id := p.id, content := p.payload, senderId := p.originalSenderId,
            receiverId := s.localDeviceId, timestamp := p.timestamp,
            hops := p.hops, status := .delivered },
        .broadcast
          (createPacket env.ackId env.now .ACK s.localDeviceId
            p.originalSenderId p.id none)] ++
       (if shouldRelay p s.localDeviceId then
          [MTEffect.broadcast (prepareForRelay p s.localDeviceId)]
        else [])) ∧
    (createPacket env.ackId env.now .ACK s.localDeviceId p.originalSenderId
      p.id none).ttl = MAX_TTL ∧
    (createPacket env.ackId env.now .ACK s.localDeviceId p.originalSenderId
      p.id none).payload = p.id ∧
    (createPacket env.ackId env.now .ACK s.localDeviceId p.originalSenderId
      p.id none).targetId = p.originalSenderId ∧
    ∀ e ∈ (handleReceivedPacket env s p t).2,
      (∀ m b, e ≠ .persistMessage m b) ∧ ∀ i, e ≠ .queryMessageExists i := by
  have hmain : handleReceivedPacket env s p t =
      ({ s with processedPackets := s.processedPackets ++ [p.id] },
       [.messageReceived
          { id := p.id, content := p.payload, senderId := p.originalSenderId,
            receiverId := s.localDeviceId, timestamp := p.timestamp,
            hops := p.hops, status := .delivered },
        .broadcast
          (createPacket env.ackId env.now .ACK s.localDeviceId
            p.originalSenderId p.id none)] ++
       (if shouldRelay p s.localDeviceId then
          [MTEffect.broadcast (prepareForRelay p s.localDeviceId)]
        else [])) := by
    unfold handleReceivedPacket
    rw [if_neg (by simp [hv]), if_neg hnew]
    simp only [hty, handleMessagePacket, sendAck]
    rw [if_pos (by simpa using htgt)]
  refine ⟨hmain, rfl, rfl, rfl, ?_⟩
  rw [hmain]
  intro e he
  rcases List.mem_append.mp he with h12 | hrel
  · simp only [List.mem_cons, List.not_mem_nil, or_false] at h12
    rcases h12 with h | h <;> subst h <;>
      exact ⟨fun m b => by simp, fun i => by simp⟩
  · by_cases hr : shouldRelay p s.localDeviceId = true
    · rw [if_pos hr] at hrel
      simp only [List.mem_singleton] at hrel
      subst hrel
      exact ⟨fun m b => by simp, fun i => by simp⟩
    · rw [if_neg hr] at hrel
      simp at hrel

/-- C2 applied at a concrete state and packet (target equals the local id). -/
theorem C2_message_delivery_witness :
    verifyPacket exPacket = true ∧ exPacket.id ∉ exState.processedPackets ∧
    exPacket.type = .MESSAGE ∧ exPacket.targetId = exState.localDeviceId ∧
    ∀ e ∈ (handleReceivedPacket exEnv exState exPacket exTransport).2,
      (∀ m b, e ≠ .persistMessage m b) ∧ ∀ i, e ≠ .queryMessageExists i :=
  ⟨by decide, by decide, by decide, by decide,
   (C2_message_delivery exEnv exState exPacket exTransport (by decide) (by decide)
     (by decide) (Or.inl (by decide))).2.2.2.2⟩

/-- C2 counterexample (the claim as frozen also asserts persistence and a
`messageExists` consultation): on the same concrete verified, unseen,
targeted MESSAGE packet, the routing engine emits NO persistence effect and
NO `messageExists` query — those exist only on the network-relay channel of
GlobalMeshRelay, not on the packet path. -/
theorem C2_no_persistence_counterexample :
    verifyPacket exPacket = true ∧ exPacket.id ∉ exState.processedPackets ∧
    exPacket.type = .MESSAGE ∧ exPacket.targetId = exState.localDeviceId ∧
    ((handleReceivedPacket exEnv exState exPacket exTransport).2.any
       (fun e =>
         match e with
         | .persistMessage _ _ => true
         | .queryMessageExists _ => true
         | _ => false)) = false := by
  refine ⟨by decide, by decide, by decide, by decide, by decide⟩

/-! ### C5: duplicate suppression -/

/-- An unverifiable packet leaves the engine untouched (shared helper). -/
theorem hrp_invalid_drop (env : MTEnv) (s : MTState) (p : MeshPacket)
    (t : List Nat) (h : verifyPacket p = false) :
    handleReceivedPacket env s p t = (s, []) := by
  simp [handleReceivedPacket, h]

/-- A packet whose id is in the seen set leaves the engine untouched. -/
theorem hrp_seen_drop (env : MTEnv) (s : MTState) (p : MeshPacket)
    (t : List Nat) (h : p.id ∈ s.processedPackets) :
    handleReceivedPacket env s p t = (s, []) := by
  unfold handleReceivedPacket
  by_cases hv : verifyPacket p = false
  · rw [if_pos hv]
  · rw [if_neg hv, if_pos h]

/-- `addDiscoveredDevice` does not touch the seen set. -/
theorem addDiscoveredDevice_preserves_processed (now : Int) (s : MTState)
    (device : MeshDevice) :
    (addDiscoveredDevice now s device).1.processedPackets = s.processedPackets := by
  unfold addDiscoveredDevice
  cases assocGet s.discoveredDevices device.id <;> rfl

/-- None of the dispatch handlers touches the seen set. -/
theorem handlers_preserve_processed (env : MTEnv) (s : MTState) (p : MeshPacket)
    (t : List Nat) :
    (handleMessagePacket env s p).1.processedPackets = s.processedPackets ∧
    (handleAckPacket s p).1.processedPackets = s.processedPackets ∧
    (handleDiscoveryPacket env s p t).1.processedPackets = s.processedPackets ∧
    (handlePingPacket env s p).1.processedPackets = s.processedPackets := by
  refine ⟨?_, ?_, ?_, ?_⟩
  · unfold handleMessagePacket; split <;> rfl
  · unfold handleAckPacket
    rcases h : assocGet s.pendingAcks p.payload with _ | e <;> simp [h]
  · unfold handleDiscoveryPacket
    rcases h : jsonParse p.payload with _ | j
    · rfl
    · cases j <;>
        first
          | rfl
          | exact addDiscoveredDevice_preserves_processed _ _ _
  · unfold handlePingPacket
    rcases h : assocGet s.discoveredDevices p.senderId with _ | d <;> simp [h]

/-- After a verified, unseen packet is processed, its id is in the seen set. -/
theorem hrp_records_id (env : MTEnv) (s : MTState) (p : MeshPacket) (t : List Nat)
    (hv : ¬verifyPacket p = false) (hnew : p.id ∉ s.processedPackets) :
    (handleReceivedPacket env s p t).1.processedPackets =
      s.processedPackets ++ [p.id] := by
  unfold handleReceivedPacket
  rw [if_neg hv, if_neg hnew]
  have h := handlers_preserve_processed env
    { s with processedPackets := s.processedPackets ++ [p.id] } p t
  cases hty : p.type <;> simp only [] <;>
    first
      | exact h.1
      | exact h.2.1
      | exact h.2.2.1
      | exact h.2.2.2

/-- Counting homomorphism over concatenation. -/
theorem countMsg_append (a b : List MTEffect) :
    countMsg (a ++ b) = countMsg a + countMsg b := by
  simp [countMsg, List.filter_append]

/-- Counting homomorphism over concatenation. -/
theorem countRelay_append (i : List Nat) (a b : List MTEffect) :
    countRelay i (a ++ b) = countRelay i a + countRelay i b := by
  simp [countRelay, List.filter_append]

/-- Per-handler effect counts: at most one delivery from the MESSAGE
handler, no re-broadcast of the incoming id from any handler (the ACK
carries the fresh id `env.ackId`). -/
theorem dispatch_counts (env : MTEnv) (s : MTState) (p : MeshPacket)
    (t : List Nat) (hack : env.ackId ≠ p.id) :
    (countMsg (handleMessagePacket env s p).2 ≤ 1 ∧
      countRelay p.id (handleMessagePacket env s p).2 = 0) ∧
    (countMsg (handleAckPacket s p).2 = 0 ∧
      countRelay p.id (handleAckPacket s p).2 = 0) ∧
    (countMsg (handleDiscoveryPacket env s p t).2 = 0 ∧
      countRelay p.id (handleDiscoveryPacket env s p t).2 = 0) ∧
    (countMsg (handlePingPacket env s p).2 = 0 ∧
      countRelay p.id (handlePingPacket env s p).2 = 0) := by
  have hadd : ∀ (now : Int) (st : MTState) (d : MeshDevice),
      countMsg (addDiscoveredDevice now st d).2 = 0 ∧
      countRelay p.id (addDiscoveredDevice now st d).2 = 0 := by
    intro now st d
    unfold addDiscoveredDevice
    rcases h : assocGet st.discoveredDevices d.id with _ | e <;>
      simp [h, countMsg, countRelay, isMsgReceived, isRelayOf]
  refine ⟨?_, ?_, ?_, ?_⟩
  · unfold handleMessagePacket
    split
    · constructor
      · simp [countMsg, isMsgReceived, sendAck]
      · simp [countRelay, isRelayOf, sendAck, createPacket, isMsgReceived]
        simp [hack]
    · simp [countMsg, countRelay]
  · unfold handleAckPacket
    rcases h : assocGet s.pendingAcks p.payload with _ | e <;>
      simp [h, countMsg, countRelay, isMsgReceived, isRelayOf]
  · unfold handleDiscoveryPacket
    rcases h : jsonParse p.payload with _ | j
    · simp [countMsg, countRelay]
    · cases j <;> first
        | exact hadd _ _ _
        | simp [countMsg, countRelay]
  · unfold handlePingPacket
    rcases h : assocGet s.discoveredDevices p.senderId with _ | d <;>
      simp [h, countMsg, countRelay, isMsgReceived, isRelayOf]

/-- Single-call counts: one ingress call delivers at most once and
re-broadcasts the incoming id at most once. -/
theorem hrp_counts (env : MTEnv) (s : MTState) (p : MeshPacket) (t : List Nat)
    (hack : env.ackId ≠ p.id) :
    countMsg (handleReceivedPacket env s p t).2 ≤ 1 ∧
    countRelay p.id (handleReceivedPacket env s p t).2 ≤ 1 := by
  unfold handleReceivedPacket
  by_cases hv : verifyPacket p = false
  · rw [if_pos hv]; simp [countMsg, countRelay]
  · rw [if_neg hv]
    by_cases hseen : p.id ∈ s.processedPackets
    · rw [if_pos hseen]; simp [countMsg, countRelay]
    · rw [if_neg hseen]
      have hrelay : ∀ L : List Nat,
          countMsg (if shouldRelay p L then
              [MTEffect.broadcast (prepareForRelay p L)] else []) = 0 ∧
          countRelay p.id (if shouldRelay p L then
              [MTEffect.broadcast (prepareForRelay p L)] else []) ≤ 1 := by
        intro L
        split
        · refine ⟨by simp [countMsg, isMsgReceived], ?_⟩
          simp only [countRelay, List.filter]
          cases isRelayOf p.id (MTEffect.broadcast (prepareForRelay p L)) <;> simp
        · simp [countMsg, countRelay]
      have hd := dispatch_counts env
        { s with processedPackets := s.processedPackets ++ [p.id] } p t hack
      rcases hd with ⟨hm, ha, hdisc, hping⟩
      cases p.type <;> dsimp only
      · rcases hres : handleDiscoveryPacket env
          { s with processedPackets := s.processedPackets ++ [p.id] } p t with ⟨s2, effs⟩
        have h1m := hdisc.1; have h1r := hdisc.2
        rw [hres] at h1m h1r
        dsimp only at h1m h1r ⊢
        simp only [countMsg_append, countRelay_append]
        exact ⟨by have h2 := (hrelay s2.localDeviceId).1; omega,
               by have h2 := (hrelay s2.localDeviceId).2; omega⟩
      · rcases hres : handleDiscoveryPacket env
          { s with processedPackets := s.processedPackets ++ [p.id] } p t with ⟨s2, effs⟩
        have h1m := hdisc.1; have h1r := hdisc.2
        rw [hres] at h1m h1r
        dsimp only at h1m h1r ⊢
        simp only [countMsg_append, countRelay_append]
        exact ⟨by have h2 := (hrelay s2.localDeviceId).1; omega,
               by have h2 := (hrelay s2.localDeviceId).2; omega⟩
      · rcases hres : handleMessagePacket env
          { s with processedPackets := s.processedPackets ++ [p.id] } p with ⟨s2, effs⟩
        have h1m := hm.1; have h1r := hm.2
        rw [hres] at h1m h1r
        dsimp only at h1m h1r ⊢
        simp only [countMsg_append, countRelay_append]
        exact ⟨by have h2 := (hrelay s2.localDeviceId).1; omega,
               by have h2 := (hrelay s2.localDeviceId).2; omega⟩
      · rcases hres : handleAckPacket
          { s with processedPackets := s.processedPackets ++ [p.id] } p with ⟨s2, effs⟩
        have h1m := ha.1; have h1r := ha.2
        rw [hres] at h1m h1r
        dsimp only at h1m h1r ⊢
        simp only [countMsg_append, countRelay_append]
        exact ⟨by have h2 := (hrelay s2.localDeviceId).1; omega,
               by have h2 := (hrelay s2.localDeviceId).2; omega⟩
      · simp only [countMsg_append, countRelay_append]
        have h0m : countMsg ([] : List MTEffect) = 0 := rfl
        have h0r : countRelay p.id ([] : List MTEffect) = 0 := rfl
        exact ⟨by have h2 := (hrelay s.localDeviceId).1; omega,
               by have h2 := (hrelay s.localDeviceId).2; omega⟩
      · rcases hres : handlePingPacket env
          { s with processedPackets := s.processedPackets ++ [p.id] } p with ⟨s2, effs⟩
        have h1m := hping.1; have h1r := hping.2
        rw [hres] at h1m h1r
        dsimp only at h1m h1r ⊢
        simp only [countMsg_append, countRelay_append]
        exact ⟨by have h2 := (hrelay s2.localDeviceId).1; omega,
               by have h2 := (hrelay s2.localDeviceId).2; omega⟩

/-- Once the id is in the seen set, a whole trace of receipts of that id is
a no-op. -/
theorem processAll_seen (i : List Nat) : ∀ (calls : List RecvCall) (s : MTState),
    (∀ c ∈ calls, c.packet.id = i) → i ∈ s.processedPackets →
    processAll s calls = (s, []) := by
  intro calls
  induction calls with
  | nil => intro s _ _; rfl
  | cons c cs ih =>
    intro s hids hmem
    have hstep : handleReceivedPacket c.env s c.packet c.transport = (s, []) := by
      apply hrp_seen_drop
      rw [hids c (List.mem_cons_self c cs)]
      exact hmem
    unfold processAll
    rw [hstep]
    dsimp only
    rw [ih s (fun x hx => hids x (List.mem_cons_of_mem c hx)) hmem]
    rfl

/-- C5: a packet id already in the seen set makes `handleReceivedPacket` a
silent no-op, and across any sequence of receipts of packets carrying one
id (with fresh ACK ids, as `createPacket` draws them), the engine emits at
most one `onMessageReceived` and re-broadcasts that id at most once. -/
theorem C5_duplicate_suppression :
    (∀ (env : MTEnv) (s : MTState) (p : MeshPacket) (t : List Nat),
        p.id ∈ s.processedPackets → handleReceivedPacket env s p t = (s, [])) ∧
    ∀ (i : List Nat) (calls : List RecvCall) (s : MTState),
      (∀ c ∈ calls, c.packet.id = i ∧ c.env.ackId ≠ i) →
      countMsg (processAll s calls).2 ≤ 1 ∧
      countRelay i (processAll s calls).2 ≤ 1 := by
  refine ⟨hrp_seen_drop, ?_⟩
  intro i calls
  induction calls with
  | nil => intro s _; simp [processAll, countMsg, countRelay]
  | cons c cs ih =>
    intro s hcs
    have hidc : c.packet.id = i := (hcs c (List.mem_cons_self c cs)).1
    have hackc : c.env.ackId ≠ i := (hcs c (List.mem_cons_self c cs)).2
    have hcs' : ∀ x ∈ cs, x.packet.id = i ∧ x.env.ackId ≠ i :=
      fun x hx => hcs x (List.mem_cons_of_mem c hx)
    unfold processAll
    by_cases hv : verifyPacket c.packet = false
    · rw [hrp_invalid_drop c.env s c.packet c.transport hv]
      dsimp only
      simp only [List.nil_append]
      exact ih s hcs'
    · by_cases hseen : c.packet.id ∈ s.processedPackets
      · rw [hrp_seen_drop c.env s c.packet c.transport hseen]
        dsimp only
        simp only [List.nil_append]
        exact ih s hcs'
      · have hrec : (handleReceivedPacket c.env s c.packet c.transport).1.processedPackets
            = s.processedPackets ++ [c.packet.id] :=
          hrp_records_id c.env s c.packet c.transport hv hseen
        have hcounts := hrp_counts c.env s c.packet c.transport (by rw [hidc]; exact hackc)
        rcases hres : handleReceivedPacket c.env s c.packet c.transport with ⟨s1, e1⟩
        rw [hres] at hrec hcounts
        dsimp only at hrec hcounts ⊢
        rw [hidc] at hcounts
        have hmem1 : i ∈ s1.processedPackets := by
          rw [hrec, ← hidc]
          exact List.mem_append_right _ (List.mem_singleton_self _)
        rw [processAll_seen i cs s1 (fun x hx => (hcs' x hx).1) hmem1]
        dsimp only
        simp only [List.append_nil]
        exact hcounts

/-- C5 applied at a concrete duplicate receipt and a concrete two-receipt
trace of the same packet. -/
theorem C5_duplicate_suppression_witness :
    exPacket.id ∈ exSeenState.processedPackets ∧
    handleReceivedPacket exEnv exSeenState exPacket exTransport = (exSeenState, []) ∧
    (∀ c ∈ exCalls, c.packet.id = exPacket.id ∧ c.env.ackId ≠ exPacket.id) ∧
    countMsg (processAll exState exCalls).2 ≤ 1 ∧
    countRelay exPacket.id (processAll exState exCalls).2 ≤ 1 :=
  ⟨by decide,
   C5_duplicate_suppression.1 exEnv exSeenState exPacket exTransport (by decide),
   by decide,
   (C5_duplicate_suppression.2 exPacket.id exCalls exState (by decide)).1,
   (C5_duplicate_suppression.2 exPacket.id exCalls exState (by decide)).2⟩

/-! ### Ordered-map lemmas shared by the sweep and retry proofs -/

/-- Setting a key makes it readable. -/
theorem assocGet_set_self {V : Type} (ms : List (List Nat × V)) (k : List Nat) (v : V) :
    assocGet (assocSet ms k v) k = some v := by
  induction ms with
  | nil => simp [assocSet, assocGet]
  | cons m rest ih =>
    by_cases h : m.1 = k <;> simp [assocSet, assocGet, h, ih]

/-- Setting another key does not change a lookup. -/
theorem assocGet_set_other {V : Type} (ms : List (List Nat × V)) (k k' : List Nat)
    (v : V) (h : k' ≠ k) : assocGet (assocSet ms k' v) k = assocGet ms k := by
  induction ms with
  | nil => simp [assocSet, assocGet, h]
  | cons m rest ih =>
    by_cases hm : m.1 = k'
    · simp [assocSet, assocGet, hm, h, ih]
    · by_cases hk : m.1 = k <;>
        simp [assocSet, assocGet, hm, hk, ih, h, Ne.symm h]

/-- Deleting another key does not change a lookup. -/
theorem assocGet_delete_other {V : Type} (ms : List (List Nat × V)) (k k' : List Nat)
    (h : k' ≠ k) : assocGet (assocDelete ms k') k = assocGet ms k := by
  induction ms with
  | nil => simp [assocDelete]
  | cons m rest ih =>
    by_cases hm : m.1 = k'
    · have hk : ¬m.1 = k := by rw [hm]; exact h
      simp [assocDelete, assocGet, hm, hk, h, Ne.symm h]
    · by_cases hk : m.1 = k <;>
        simp [assocDelete, assocGet, hm, hk, ih, h, Ne.symm h]

/-- A key outside the key list reads as `none`. -/
theorem assocGet_eq_none {V : Type} (ms : List (List Nat × V)) (k : List Nat)
    (h : k ∉ ms.map Prod.fst) : assocGet ms k = none := by
  induction ms with
  | nil => rfl
  | cons m rest ih =>
    simp only [List.map_cons, List.mem_cons, not_or] at h
    have hm : ¬m.1 = k := fun he => h.1 he.symm
    simp [assocGet, hm, ih h.2]

/-- The keys of a deletion form a sublist of the original keys. -/
theorem keys_delete_sublist {V : Type} (ms : List (List Nat × V)) (k : List Nat) :
    ((assocDelete ms k).map Prod.fst).Sublist (ms.map Prod.fst) := by
  induction ms with
  | nil => simp [assocDelete]
  | cons m rest ih =>
    by_cases hm : m.1 = k
    · simp only [assocDelete, hm, if_pos, List.map_cons]
      exact List.sublist_cons_self _ _
    · simp only [assocDelete, hm, if_neg, ite_false, List.map_cons]
      exact List.Sublist.cons₂ _ ih

/-- Deletion preserves distinct keys. -/
theorem keys_nodup_delete {V : Type} (ms : List (List Nat × V)) (k : List Nat)
    (h : (ms.map Prod.fst).Nodup) : ((assocDelete ms k).map Prod.fst).Nodup :=
  h.sublist (keys_delete_sublist ms k)

/-- Every key after a set is an old key or the set key. -/
theorem mem_keys_set {V : Type} (ms : List (List Nat × V)) (k : List Nat) (v : V) :
    ∀ x, x ∈ (assocSet ms k v).map Prod.fst → x ∈ ms.map Prod.fst ∨ x = k := by
  induction ms with
  | nil => intro x hx; simp [assocSet] at hx; exact Or.inr hx
  | cons m rest ih =>
    intro x hx
    by_cases hm : m.1 = k
    · simp only [assocSet, hm, if_pos, List.map_cons, List.mem_cons] at hx
      rcases hx with hx | hx
      · exact Or.inr hx
      · exact Or.inl (List.mem_cons_of_mem _ hx)
    · simp only [assocSet, hm, if_neg, ite_false, List.map_cons, List.mem_cons] at hx
      rcases hx with hx | hx
      · exact Or.inl (hx ▸ List.mem_cons_self _ _)
      · rcases ih x hx with hy | hy
        · exact Or.inl (List.mem_cons_of_mem _ hy)
        · exact Or.inr hy

/-- Updating a key preserves distinct keys. -/
theorem keys_nodup_set {V : Type} (ms : List (List Nat × V)) (k : List Nat) (v : V)
    (h : (ms.map Prod.fst).Nodup) : ((assocSet ms k v).map Prod.fst).Nodup := by
  induction ms with
  | nil => simp [assocSet]
  | cons m rest ih =>
    simp only [List.map_cons, List.nodup_cons] at h
    by_cases hm : m.1 = k
    · simp only [assocSet, hm, if_pos, List.map_cons, List.nodup_cons]
      exact ⟨hm ▸ h.1, h.2⟩
    · simp only [assocSet, hm, if_neg, ite_false, List.map_cons, List.nodup_cons]
      refine ⟨?_, ih h.2⟩
      intro hmem
      rcases mem_keys_set rest k v _ hmem with hy | hy
      · exact h.1 hy
      · exact hm hy

/-- With distinct keys, deleting a key removes it entirely. -/
theorem assocGet_delete_self {V : Type} (ms : List (List Nat × V)) (k : List Nat)
    (h : (ms.map Prod.fst).Nodup) : assocGet (assocDelete ms k) k = none := by
  induction ms with
  | nil => rfl
  | cons m rest ih =>
    simp only [List.map_cons, List.nodup_cons] at h
    by_cases hm : m.1 = k
    · simp only [assocDelete, hm, if_pos]
      exact assocGet_eq_none rest k (hm ▸ h.1)
    · simp only [assocDelete, hm, if_neg, ite_false]
      simp [assocGet, hm, ih h.2]

/-! ### C9: the liveness sweep deletes, the unified layer retains -/

/-- Sweeping entries with other keys never resurrects an absent device. -/
theorem sweep_preserves_absent (now : Int) (i : List Nat) :
    ∀ (l : List (List Nat × MeshDevice)) (acc : MTState × List MTEffect),
    assocGet acc.1.discoveredDevices i = none → (∀ e ∈ l, e.1 ≠ i) →
    assocGet (l.foldl (sweepStep now) acc).1.discoveredDevices i = none := by
  intro l
  induction l with
  | nil => intro acc h _; exact h
  | cons e rest ih =>
    intro acc habs hkeys
    have hne : e.1 ≠ i := hkeys e (List.mem_cons_self e rest)
    simp only [List.foldl_cons]
    apply ih _ _ (fun x hx => hkeys x (List.mem_cons_of_mem e hx))
    unfold sweepStep
    split_ifs with h1 h2
    · simpa [assocGet_delete_other _ i e.1 hne] using habs
    · simpa [assocGet_set_other _ i e.1 _ hne] using habs
    · exact habs

/-- Sweeping only appends effects. -/
theorem sweep_effects_mono (now : Int) :
    ∀ (l : List (List Nat × MeshDevice)) (acc : MTState × List MTEffect)
      (e : MTEffect), e ∈ acc.2 → e ∈ (l.foldl (sweepStep now) acc).2 := by
  intro l
  induction l with
  | nil => intro acc e h; exact h
  | cons x rest ih =>
    intro acc e h
    simp only [List.foldl_cons]
    apply ih
    unfold sweepStep
    split_ifs <;> simp [h]

/-- Sweeping preserves distinct keys of the device map. -/
theorem sweep_preserves_nodup (now : Int) :
    ∀ (l : List (List Nat × MeshDevice)) (acc : MTState × List MTEffect),
    (acc.1.discoveredDevices.map Prod.fst).Nodup →
    ((l.foldl (sweepStep now) acc).1.discoveredDevices.map Prod.fst).Nodup := by
  intro l
  induction l with
  | nil => intro acc h; exact h
  | cons x rest ih =>
    intro acc h
    simp only [List.foldl_cons]
    apply ih
    unfold sweepStep
    split_ifs
    · exact keys_nodup_delete _ _ h
    · exact keys_nodup_set _ _ _ h
    · exact h

/-- C9 (amended: the 5-second sweep DELETES a record stale past the hard
timeout from its in-memory device map — and drops the peer — while emitting
`onDeviceLost`; it is the unified layer whose `handleDeviceLost` RETAINS its
merged record with `isOnline = false` and `isConnected = false`; durable
device records are deleted only by the explicit age-based `cleanupOldData`
pass): sweep deletion, unified retention, and age-based eviction. -/
theorem C9_sweep_deletes_unified_retains :
    (∀ (now : Int) (s : MTState) (i : List Nat) (d : MeshDevice),
       (s.discoveredDevices.map Prod.fst).Nodup →
       (i, d) ∈ s.discoveredDevices → now - d.lastSeen > 180000 →
       assocGet (updateDeviceStatuses now s).1.discoveredDevices i = none ∧
       MTEffect.deviceLost i ∈ (updateDeviceStatuses now s).2) ∧
    (∀ (devices : List (List Nat × MeshDevice)) (i : List Nat) (d : MeshDevice),
       assocGet devices i = some d →
       handleDeviceLost devices i =
         (assocSet devices i (lmSetOffline d), [MTEffect.deviceLost i]) ∧
       assocGet (handleDeviceLost devices i).1 i =
         some { d with isOnline := some false, isConnected := false }) ∧
    ∀ (now maxAge : Int) (devices : List MeshDevice) (d : MeshDevice),
      d ∈ devices →
      (d ∈ cleanupOldData now maxAge devices ↔
        ¬(d.lastSeen < now - maxAge ∧ d.isSelf ≠ some true)) := by
  refine ⟨?_, ?_, ?_⟩
  · intro now s i d hnodup hmem hstale
    obtain ⟨l1, l2, hsplit⟩ := List.append_of_mem hmem
    unfold updateDeviceStatuses
    rw [hsplit, List.foldl_append, List.foldl_cons]
    have hkeys2 : ∀ e ∈ l2, e.1 ≠ i := by
      intro e he hei
      rw [hsplit] at hnodup
      simp only [List.map_append, List.map_cons] at hnodup
      have := (List.nodup_append.mp hnodup).2.1
      simp only [List.nodup_cons] at this
      exact this.1 (hei ▸ List.mem_map_of_mem _ he)
    set acc1 := l1.foldl (sweepStep now) (s, []) with hacc1
    have hnodup1 : (acc1.1.discoveredDevices.map Prod.fst).Nodup :=
      sweep_preserves_nodup now l1 (s, []) hnodup
    have hstep : sweepStep now acc1 (i, d) =
        ({ acc1.1 with
             discoveredDevices := assocDelete acc1.1.discoveredDevices i,
             peers := acc1.1.peers.erase i },
         acc1.2 ++ [.deviceLost i]) := by
      unfold sweepStep
      rw [if_pos hstale]
    rw [hstep]
    constructor
    · apply sweep_preserves_absent now i l2 _ _ hkeys2
      exact assocGet_delete_self _ _ hnodup1
    · apply sweep_effects_mono now l2
      simp
  · intro devices i d hget
    unfold handleDeviceLost
    rw [hget]
    refine ⟨rfl, ?_⟩
    dsimp only
    rw [assocGet_set_self]
    rfl
  · intro now maxAge devices d hmem
    unfold cleanupOldData
    constructor
    · intro hin hcond
      obtain ⟨h1, h2⟩ := hcond
      have hf := (List.mem_filter.mp hin).2
      have hfalse :
          (!(decide (d.lastSeen < now - maxAge) && !(decide (d.isSelf = some true)))) =
            false := by
        simp [h1, h2]
      rw [hf] at hfalse
      simp at hfalse
    · intro hcond
      apply List.mem_filter.mpr
      refine ⟨hmem, ?_⟩
      by_cases h1 : d.lastSeen < now - maxAge
      · have h2 : d.isSelf = some true := by
          by_contra h2
          exact hcond ⟨h1, h2⟩
        simp [h1, h2]
      · simp [h1]

/-- C9 counterexample (the claim as frozen says the sweep RETAINS the
record): at a concrete device last seen 200 s ago, the sweep deletes the
record from the device map while emitting `onDeviceLost` — nothing offline
remains in the sweeping service. -/
theorem C9_sweep_deletes_counterexample :
    (200000 : Int) - exDevice.lastSeen > 180000 ∧
    assocGet (updateDeviceStatuses 200000 exDevState).1.discoveredDevices [68] = none ∧
    (updateDeviceStatuses 200000 exDevState).2 = [MTEffect.deviceLost [68]] := by
  refine ⟨by decide, by decide, by decide⟩

/-- C9 applied at concrete inputs: the sweep deletion, the unified-layer
retention, and the age-based eviction, each at an explicit device. -/
theorem C9_sweep_deletes_unified_retains_witness :
    ((exDevState.discoveredDevices.map Prod.fst).Nodup ∧
      ([68], exDevice) ∈ exDevState.discoveredDevices ∧
      (200000 : Int) - exDevice.lastSeen > 180000 ∧
      assocGet (updateDeviceStatuses 200000 exDevState).1.discoveredDevices [68] = none ∧
      MTEffect.deviceLost [68] ∈ (updateDeviceStatuses 200000 exDevState).2) ∧
    (assocGet exDevState.discoveredDevices [68] = some exDevice ∧
      assocGet (handleDeviceLost exDevState.discoveredDevices [68]).1 [68] =
        some { exDevice with isOnline := some false, isConnected := false }) ∧
    (exDevice ∈ ([exDevice] : List MeshDevice) ∧
      (exDevice ∈ cleanupOldData 1000000 100 [exDevice] ↔
        ¬(exDevice.lastSeen < 1000000 - 100 ∧ exDevice.isSelf ≠ some true))) :=
  ⟨⟨by decide, by decide, by decide,
    (C9_sweep_deletes_unified_retains.1 200000 exDevState [68] exDevice (by decide)
      (by decide) (by decide)).1,
    (C9_sweep_deletes_unified_retains.1 200000 exDevState [68] exDevice (by decide)
      (by decide) (by decide)).2⟩,
   ⟨by decide,
    (C9_sweep_deletes_unified_retains.2.1 exDevState.discoveredDevices [68] exDevice
      (by decide)).2⟩,
   ⟨by decide,
    C9_sweep_deletes_unified_retains.2.2 1000000 100 [exDevice] exDevice (by decide)⟩⟩

/-! ### C7: retry caps -/

/-- Entries after a set are old entries or the set pair. -/
theorem mem_assocSet {V : Type} (ms : List (List Nat × V)) (k : List Nat) (v : V)
    (x : List Nat × V) (h : x ∈ assocSet ms k v) : x ∈ ms ∨ x = (k, v) := by
  induction ms with
  | nil => simp [assocSet] at h; exact Or.inr h
  | cons m rest ih =>
    by_cases hm : m.1 = k
    · simp only [assocSet, hm, if_pos, List.mem_cons] at h
      rcases h with h | h
      · exact Or.inr h
      · exact Or.inl (List.mem_cons_of_mem _ h)
    · simp only [assocSet, hm, if_neg, ite_false, List.mem_cons] at h
      rcases h with h | h
      · exact Or.inl (h ▸ List.mem_cons_self _ _)
      · rcases ih h with hy | hy
        · exact Or.inl (List.mem_cons_of_mem _ hy)
        · exact Or.inr hy

/-- Entries after a delete were entries before. -/
theorem mem_assocDelete {V : Type} (ms : List (List Nat × V)) (k : List Nat)
    (x : List Nat × V) (h : x ∈ assocDelete ms k) : x ∈ ms := by
  induction ms with
  | nil => simp [assocDelete] at h
  | cons m rest ih =>
    by_cases hm : m.1 = k
    · simp only [assocDelete, hm, if_pos] at h
      exact List.mem_cons_of_mem _ h
    · simp only [assocDelete, hm, if_neg, ite_false, List.mem_cons] at h
      rcases h with h | h
      · exact h ▸ List.mem_cons_self _ _
      · exact List.mem_cons_of_mem _ (ih h)

/-- An absent key means no entry carries it. -/
theorem assocGet_none_forall {V : Type} (ms : List (List Nat × V)) (k : List Nat)
    (h : assocGet ms k = none) : ∀ e ∈ ms, e.1 ≠ k := by
  induction ms with
  | nil => intro e he; simp at he
  | cons m rest ih =>
    intro e he
    by_cases hm : m.1 = k
    · simp [assocGet, hm] at h
    · simp only [assocGet, hm, if_neg, ite_false] at h
      simp only [List.mem_cons] at he
      rcases he with he | he
      · exact he ▸ hm
      · exact ih h e he

/-- The retry sweep never pushes an entry past 20. -/
theorem retry_bound : ∀ (l : List (List Nat × PendingEntry)) (acc : MTState × List MTEffect),
    (∀ e ∈ acc.1.pendingAcks, e.2.retries ≤ 20) →
    ∀ e ∈ (l.foldl retryStep acc).1.pendingAcks, e.2.retries ≤ 20 := by
  intro l
  induction l with
  | nil => intro acc h; exact h
  | cons x rest ih =>
    intro acc h
    simp only [List.foldl_cons]
    apply ih
    unfold retryStep
    split_ifs with hx
    · intro e he
      have he' : e ∈ assocDelete acc.1.pendingAcks x.1 := by simpa using he
      exact h e (mem_assocDelete _ _ _ he')
    · intro e he
      rcases mem_assocSet _ _ _ _ (by simpa using he) with hy | hy
      · exact h e hy
      · rw [hy]
        simp only [bump]
        omega

/-- The retry sweep never resurrects an absent id. -/
theorem retry_preserves_absent (i : List Nat) :
    ∀ (l : List (List Nat × PendingEntry)) (acc : MTState × List MTEffect),
    assocGet acc.1.pendingAcks i = none → (∀ e ∈ l, e.1 ≠ i) →
    assocGet (l.foldl retryStep acc).1.pendingAcks i = none := by
  intro l
  induction l with
  | nil => intro acc h _; exact h
  | cons x rest ih =>
    intro acc habs hkeys
    have hne : x.1 ≠ i := hkeys x (List.mem_cons_self x rest)
    simp only [List.foldl_cons]
    apply ih _ _ (fun e he => hkeys e (List.mem_cons_of_mem x he))
    unfold retryStep
    split_ifs
    · simpa [assocGet_delete_other _ i x.1 hne] using habs
    · simpa [assocGet_set_other _ i x.1 _ hne] using habs

/-- The retry sweep only appends effects. -/
theorem retry_effects_mono :
    ∀ (l : List (List Nat × PendingEntry)) (acc : MTState × List MTEffect)
      (e : MTEffect), e ∈ acc.2 → e ∈ (l.foldl retryStep acc).2 := by
  intro l
  induction l with
  | nil => intro acc e h; exact h
  | cons x rest ih =>
    intro acc e h
    simp only [List.foldl_cons]
    apply ih
    unfold retryStep
    split_ifs <;> simp [h]

/-- The retry sweep keeps the pending-ack keys distinct. -/
theorem retry_preserves_nodup :
    ∀ (l : List (List Nat × PendingEntry)) (acc : MTState × List MTEffect),
    (acc.1.pendingAcks.map Prod.fst).Nodup →
    ((l.foldl retryStep acc).1.pendingAcks.map Prod.fst).Nodup := by
  intro l
  induction l with
  | nil => intro acc h; exact h
  | cons x rest ih =>
    intro acc h
    simp only [List.foldl_cons]
    apply ih
    unfold retryStep
    split_ifs
    · exact keys_nodup_delete _ _ h
    · exact keys_nodup_set _ _ _ h

/-- Every effect of the retry sweep is the failure notice or the
re-broadcast of some swept entry. -/
theorem retry_effects_from :
    ∀ (l : List (List Nat × PendingEntry)) (acc : MTState × List MTEffect)
      (eff : MTEffect), eff ∈ (l.foldl retryStep acc).2 →
    eff ∈ acc.2 ∨ ∃ e ∈ l,
      eff = .messageStatusChanged e.1 .failed ∨ eff = .broadcast e.2.packet := by
  intro l
  induction l with
  | nil => intro acc eff h; exact Or.inl h
  | cons x rest ih =>
    intro acc eff h
    simp only [List.foldl_cons] at h
    rcases ih _ _ h with hy | ⟨e, he, hy⟩
    · unfold retryStep at hy
      split_ifs at hy <;> simp only [List.mem_append, List.mem_singleton] at hy
      · rcases hy with hy | hy
        · exact Or.inl hy
        · exact Or.inr ⟨x, List.mem_cons_self x rest, Or.inl hy⟩
      · rcases hy with hy | hy
        · exact Or.inl hy
        · exact Or.inr ⟨x, List.mem_cons_self x rest, Or.inr hy⟩
    · exact Or.inr ⟨e, List.mem_cons_of_mem x he, hy⟩

/-- One LocalMesh retry step never changes the ids in the queue (it filters
or bumps in place). -/
theorem lm_step_ids (now : Int) (peers : List (List Nat × Int))
    (acc : List LMPending × List LMEffect) (item : LMPending) :
    ∀ q ∈ (lmRetryStep now peers acc item).1, ∃ x ∈ acc.1, q.id = x.id := by
  intro q hq
  unfold lmRetryStep at hq
  split_ifs at hq
  · exact ⟨q, (List.mem_filter.mp hq).1, rfl⟩
  · rcases hpeer : assocGet peers item.message.receiverId with _ | ls
    · rw [hpeer] at hq
      exact ⟨q, hq, rfl⟩
    · rw [hpeer] at hq
      dsimp only at hq
      split_ifs at hq
      · rcases List.mem_map.mp hq with ⟨x, hx, hmap⟩
        refine ⟨x, hx, ?_⟩
        rw [← hmap]
        split <;> rfl
      · exact ⟨q, hq, rfl⟩

/-- Queue ids across the whole LocalMesh pass come from the starting
accumulator. -/
theorem lm_fold_ids (now : Int) (peers : List (List Nat × Int)) :
    ∀ (l : List LMPending) (acc : List LMPending × List LMEffect),
    ∀ q ∈ (l.foldl (lmRetryStep now peers) acc).1, ∃ x ∈ acc.1, q.id = x.id := by
  intro l
  induction l with
  | nil => intro acc q hq; exact ⟨q, hq, rfl⟩
  | cons x rest ih =>
    intro acc q hq
    simp only [List.foldl_cons] at hq
    rcases ih _ q hq with ⟨y, hy, hqy⟩
    rcases lm_step_ids now peers acc x y hy with ⟨z, hz, hyz⟩
    exact ⟨z, hz, hqy.trans hyz⟩

/-- The LocalMesh pass only appends effects. -/
theorem lm_effects_mono (now : Int) (peers : List (List Nat × Int)) :
    ∀ (l : List LMPending) (acc : List LMPending × List LMEffect)
      (e : LMEffect), e ∈ acc.2 → e ∈ (l.foldl (lmRetryStep now peers) acc).2 := by
  intro l
  induction l with
  | nil => intro acc e h; exact h
  | cons x rest ih =>
    intro acc e h
    simp only [List.foldl_cons]
    apply ih
    unfold lmRetryStep
    split_ifs
    · simp [h]
    · rcases hpeer : assocGet peers x.message.receiverId with _ | ls
      · exact h
      · dsimp only
        split_ifs <;> simp [h]

/-- C7 (amended: the 20-retry cap, the removal-with-`failed` at 20, and the
no-retries-after-delivery guarantee hold in the MultiTransportMesh engine;
the LocalMeshService durable-queue pass instead caps at 30, marking the
stored message failed without emitting `onMessageStatusChanged`): bounds and
removals for both retry paths. -/
theorem C7_retry_caps :
    (∀ s : MTState, (∀ e ∈ s.pendingAcks, e.2.retries ≤ 20) →
       ∀ e ∈ (retryPendingMessages s).1.pendingAcks, e.2.retries ≤ 20) ∧
    (∀ (s : MTState) (i : List Nat) (pe : PendingEntry),
       (s.pendingAcks.map Prod.fst).Nodup → (i, pe) ∈ s.pendingAcks →
       pe.retries ≥ 20 →
       assocGet (retryPendingMessages s).1.pendingAcks i = none ∧
       MTEffect.messageStatusChanged i .failed ∈ (retryPendingMessages s).2) ∧
    (∀ (s : MTState) (i : List Nat),
       (assocGet s.pendingAcks i = none → ackTimerFire s i = (s, [])) ∧
       ((∀ e ∈ s.pendingAcks, e.2.retries ≤ 20) →
         ∀ e ∈ (ackTimerFire s i).1.pendingAcks, e.2.retries ≤ 20)) ∧
    (∀ (s : MTState) (p : MeshPacket) (pe : PendingEntry),
       (s.pendingAcks.map Prod.fst).Nodup →
       assocGet s.pendingAcks p.payload = some pe →
       handleAckPacket s p =
         ({ s with pendingAcks := assocDelete s.pendingAcks p.payload,
                   messageQueue := assocDelete s.messageQueue p.payload },
          [.messageStatusChanged p.payload .delivered]) ∧
       assocGet (handleAckPacket s p).1.pendingAcks p.payload = none) ∧
    (∀ (s : MTState) (i : List Nat),
       assocGet s.pendingAcks i = none →
       (∀ e ∈ s.pendingAcks, e.2.packet.id = e.1) →
       assocGet (retryPendingMessages s).1.pendingAcks i = none ∧
       ∀ eff ∈ (retryPendingMessages s).2,
         (∀ st, eff ≠ .messageStatusChanged i st) ∧
         ∀ q, eff = .broadcast q → q.id ≠ i) ∧
    ∀ (now : Int) (peers : List (List Nat × Int)) (queue : List LMPending)
      (item : LMPending), item ∈ queue → item.retries ≥ 30 →
      (∀ q ∈ (lmRetryPendingMessages now peers queue).1, q.id ≠ item.id) ∧
      LMEffect.updateMessageStatus item.id .failed ∈
        (lmRetryPendingMessages now peers queue).2 ∧
      LMEffect.removeFromPendingQueue item.id ∈
        (lmRetryPendingMessages now peers queue).2 := by
  refine ⟨?_, ?_, ?_, ?_, ?_, ?_⟩
  · intro s h
    exact retry_bound s.pendingAcks (s, []) h
  · intro s i pe hnodup hmem hge
    obtain ⟨l1, l2, hsplit⟩ := List.append_of_mem hmem
    have hkeys2 : ∀ e ∈ l2, e.1 ≠ i := by
      intro e he hei
      rw [hsplit] at hnodup
      simp only [List.map_append, List.map_cons] at hnodup
      have := (List.nodup_append.mp hnodup).2.1
      simp only [List.nodup_cons] at this
      exact this.1 (hei ▸ List.mem_map_of_mem _ he)
    unfold retryPendingMessages
    rw [hsplit, List.foldl_append, List.foldl_cons]
    set acc1 := l1.foldl retryStep (s, []) with hacc1
    have hnodup1 : (acc1.1.pendingAcks.map Prod.fst).Nodup := by
      rw [hacc1]
      exact retry_preserves_nodup l1 (s, []) hnodup
    have hstep : retryStep acc1 (i, pe) =
        ({ acc1.1 with pendingAcks := assocDelete acc1.1.pendingAcks i,
                       messageQueue := assocDelete acc1.1.messageQueue i },
         acc1.2 ++ [.messageStatusChanged i .failed]) := by
      unfold retryStep
      rw [if_pos hge]
    rw [hstep]
    constructor
    · apply retry_preserves_absent i l2 _ _ hkeys2
      exact assocGet_delete_self _ _ hnodup1
    · apply retry_effects_mono l2
      simp
  · intro s i
    constructor
    · intro h
      unfold ackTimerFire
      rw [h]
    · intro hb
      unfold ackTimerFire
      rcases hget : assocGet s.pendingAcks i with _ | pending
      · dsimp only
        exact hb
      · dsimp only
        split_ifs with hr
        · intro e he
          dsimp only at he
          rcases mem_assocSet _ _ _ _ he with hy | hy
          · exact hb e hy
          · rw [hy]
            dsimp only
            omega
        · exact hb
  · intro s p pe hnodup hget
    have hres : handleAckPacket s p =
        ({ s with pendingAcks := assocDelete s.pendingAcks p.payload,
                  messageQueue := assocDelete s.messageQueue p.payload },
         [.messageStatusChanged p.payload .delivered]) := by
      simp only [handleAckPacket, hget]
    refine ⟨hres, ?_⟩
    rw [hres]
    exact assocGet_delete_self _ _ hnodup
  · intro s i habs hkeys
    have hk : ∀ e ∈ s.pendingAcks, e.1 ≠ i := assocGet_none_forall _ _ habs
    constructor
    · exact retry_preserves_absent i s.pendingAcks (s, []) habs hk
    · intro eff heff
      rcases retry_effects_from s.pendingAcks (s, []) eff heff with h0 | ⟨e, he, hcase⟩
      · simp at h0
      · have hne := hk e he
        rcases hcase with hc | hc
        · subst hc
          constructor
          · intro st h
            injection h with h1 h2
            exact hne h1
          · intro q h
            simp at h
        · subst hc
          constructor
          · intro st h
            simp at h
          · intro q h
            injection h with h1
            rw [← h1, hkeys e he]
            exact hne
  · intro now peers queue item hmem h30
    obtain ⟨l1, l2, hsplit⟩ := List.append_of_mem hmem
    unfold lmRetryPendingMessages
    rw [hsplit, List.foldl_append, List.foldl_cons]
    set acc1 := l1.foldl (lmRetryStep now peers) (l1 ++ item :: l2, []) with hacc1
    have hstep : lmRetryStep now peers acc1 item =
        (acc1.1.filter (fun q => q.id ≠ item.id),
         acc1.2 ++ [.updateMessageStatus item.id .failed,
                    .removeFromPendingQueue item.id]) := by
      unfold lmRetryStep
      rw [if_pos h30]
    rw [hstep]
    refine ⟨?_, ?_, ?_⟩
    · intro q hq
      rcases lm_fold_ids now peers l2 _ q hq with ⟨x, hx, hqx⟩
      have := (List.mem_filter.mp hx).2
      rw [hqx]
      simpa using this
    · apply lm_effects_mono now peers l2
      simp
    · apply lm_effects_mono now peers l2
      simp

/-- C7 counterexample (the claim as frozen says the cap is 20 for every
sent Message, including the cited LocalMeshService pass): a durable queue
record already at 20 retries whose receiver is online is re-sent and bumped
to 21 — nothing is removed and no failure is recorded at 20. -/
theorem C7_localmesh_cap_counterexample :
    exLMPending.retries ≥ 20 ∧
    lmRetryPendingMessages 100000 exPeers [exLMPending] =
      ([{ exLMPending with retries := 21, lastAttempt := 100000 }],
       [LMEffect.sendViaBroadcast exLMMessage]) := by
  refine ⟨by decide, by decide⟩

/-- C7 applied at concrete inputs: the 20-bound, the removal-with-failed at
20, the idle timer, the ACK removal, the absent-id sweep, and the LocalMesh
removal at 30. -/
theorem C7_retry_caps_witness :
    (([97], ({ packet := exPacket, retries := 20 } : PendingEntry)) ∈
        (retryPendingMessages exRetryState19).1.pendingAcks ∧
      ({ packet := exPacket, retries := 20 } : PendingEntry).retries ≤ 20) ∧
    (assocGet (retryPendingMessages exRetryState).1.pendingAcks [97] = none ∧
      MTEffect.messageStatusChanged [97] .failed ∈ (retryPendingMessages exRetryState).2) ∧
    ackTimerFire exState [97] = (exState, []) ∧
    assocGet (handleAckPacket exRetryState exAckPacket).1.pendingAcks
      exAckPacket.payload = none ∧
    assocGet (retryPendingMessages exState).1.pendingAcks [99] = none ∧
    LMEffect.updateMessageStatus [109] .failed ∈
      (lmRetryPendingMessages 0 [] [exLMPending30]).2 :=
  ⟨⟨by decide,
    C7_retry_caps.1 exRetryState19 (by decide)
      ([97], { packet := exPacket, retries := 20 }) (by decide)⟩,
   ⟨(C7_retry_caps.2.1 exRetryState [97] { packet := exPacket, retries := 20 }
       (by decide) (by decide) (by decide)).1,
    (C7_retry_caps.2.1 exRetryState [97] { packet := exPacket, retries := 20 }
       (by decide) (by decide) (by decide)).2⟩,
   (C7_retry_caps.2.2.1 exState [97]).1 (by decide),
   (C7_retry_caps.2.2.2.1 exRetryState exAckPacket { packet := exPacket, retries := 20 }
      (by decide) (by decide)).2,
   (C7_retry_caps.2.2.2.2.1 exState [99] (by decide) (by decide)).1,
   (C7_retry_caps.2.2.2.2.2 0 [] [exLMPending30] exLMPending30 (by decide)
      (by decide)).2.1⟩
/-! ### UTF-16 / scalar-value / UTF-8 inversion -/

/-- On well-formed UTF-16, `TextDecoder`s re-expansion undoes `TextEncoder`s
scalar-value view, and every produced scalar is a valid non-surrogate. -/
theorem utf16_scalars_roundtrip : ∀ s, wfU s = true →
    scalarsToUtf16 (utf16ToScalars s) = s ∧
      ∀ c ∈ utf16ToScalars s, c < 1114112 ∧ ¬(55296 ≤ c ∧ c < 57344) := by
  intro s
  induction s using utf16ToScalars.induct with
  | case1 => intro _; exact ⟨rfl, by simp [utf16ToScalars]⟩
  | case2 c =>
    intro hw
    simp only [wfU, Bool.and_eq_true, Bool.not_eq_true', Bool.or_eq_false_iff,
      decide_eq_true_eq] at hw
    obtain ⟨⟨hh, hl⟩, hc⟩ := hw
    have hsel : (if (isHigh c || isLow c) = true then 65533 else c) = c := by
      rw [hh, hl]; simp
    refine ⟨?_, ?_⟩
    · rw [utf16ToScalars, hsel, scalarsToUtf16, if_pos hc]
      rfl
    · intro x hx
      rw [utf16ToScalars, hsel] at hx
      simp only [List.mem_singleton] at hx
      subst hx
      simp [isHigh, isLow] at hh hl
      omega
  | case3 c c2 rest hpair ih =>
    intro hw
    have hhigh : isHigh c = true := by
      by_contra hneg
      simp [hneg] at hpair
    have hw' : isLow c2 = true ∧ wfU rest = true := by
      rw [wfU, if_pos hhigh] at hw
      simpa [Bool.and_eq_true] using hw
    obtain ⟨hlow, hwr⟩ := hw'
    obtain ⟨ih1, ih2⟩ := ih hwr
    have hhigh' : 55296 ≤ c ∧ c < 56320 := by simpa [isHigh] using hhigh
    have hlow' : 56320 ≤ c2 ∧ c2 < 57344 := by simpa [isLow] using hlow
    have hcp : 65536 ≤ combinePair c c2 ∧ combinePair c c2 < 1114112 := by
      simp only [combinePair]; omega
    refine ⟨?_, ?_⟩
    · rw [utf16ToScalars, if_pos hpair, scalarsToUtf16, if_neg (by omega), ih1]
      have e1 : 55296 + (combinePair c c2 - 65536) / 1024 = c := by
        simp only [combinePair]; omega
      have e2 : 56320 + (combinePair c c2 - 65536) % 1024 = c2 := by
        simp only [combinePair]; omega
      rw [e1, e2]
    · intro x hx
      rw [utf16ToScalars, if_pos hpair] at hx
      rcases List.mem_cons.mp hx with h | h
      · rw [h]; exact ⟨hcp.2, by omega⟩
      · exact ih2 x h
  | case4 c c2 rest hpair ih =>
    intro hw
    have hhigh : isHigh c = false := by
      by_contra hneg
      rw [Bool.not_eq_false] at hneg
      rw [wfU, if_pos hneg] at hw
      rw [Bool.and_eq_true] at hw
      simp [hneg, hw.1] at hpair
    have hw' : isLow c = false ∧ c < 65536 ∧ wfU (c2 :: rest) = true := by
      rw [wfU, if_neg (by simp [hhigh])] at hw
      simp only [Bool.and_eq_true, Bool.not_eq_true', decide_eq_true_eq] at hw
      tauto
    obtain ⟨hlow, hc, hwr⟩ := hw'
    obtain ⟨ih1, ih2⟩ := ih hwr
    have hsel : (if (isHigh c || isLow c) = true then 65533 else c) = c := by
      rw [hhigh, hlow]; simp
    refine ⟨?_, ?_⟩
    · rw [utf16ToScalars, if_neg (by simp [hpair]), hsel, scalarsToUtf16,
        if_pos hc, ih1]
    · intro x hx
      rw [utf16ToScalars, if_neg (by simp [hpair]), hsel] at hx
      rcases List.mem_cons.mp hx with h | h
      · subst h
        simp [isHigh, isLow] at hhigh hlow
        omega
      · exact ih2 x h

/-- Decoding the UTF-8 bytes of one valid scalar recovers it and continues. -/
theorem utf8Decode_encodeChar : ∀ c bs, c < 1114112 → ¬(55296 ≤ c ∧ c < 57344) →
    utf8Decode (utf8EncodeChar c ++ bs) = c :: utf8Decode bs := by
  intro c bs hlt hns
  rw [utf8EncodeChar]
  by_cases h1 : c < 128
  · rw [if_pos h1]
    cases bs with
    | nil =>
      rw [List.singleton_append, utf8Decode.eq_def]
      simp only []
      rw [if_pos h1]
      rfl
    | cons b bs' =>
      rw [List.singleton_append, utf8Decode.eq_def]
      simp only []
      rw [if_pos h1]
  · rw [if_neg h1]
    by_cases h2 : c < 2048
    · rw [if_pos h2]
      have hcont : isCont (128 + c % 64) = true := by
        simp only [isCont, Bool.and_eq_true, decide_eq_true_eq]; omega
      rw [List.cons_append, List.cons_append, List.nil_append,
        utf8Decode.eq_def]
      simp only []
      rw [if_neg (by omega), if_pos (by omega)]
      rw [if_pos (by simp only [hcont, Bool.and_true, decide_eq_true_eq]; omega)]
      have : (192 + c / 64 - 192) * 64 + (128 + c % 64 - 128) = c := by omega
      rw [this]
    · rw [if_neg h2]
      by_cases h3 : c < 65536
      · rw [if_pos h3]
        have hcont2 : isCont (128 + c / 64 % 64) = true := by
          simp only [isCont, Bool.and_eq_true, decide_eq_true_eq]; omega
        have hcont3 : isCont (128 + c % 64) = true := by
          simp only [isCont, Bool.and_eq_true, decide_eq_true_eq]; omega
        rw [List.cons_append, List.cons_append, List.cons_append,
          List.nil_append, utf8Decode.eq_def]
        simp only []
        rw [if_neg (by omega), if_neg (by omega), if_pos (by omega)]
        rw [if_pos (by rw [hcont2, hcont3]; rfl)]
        have hval : (224 + c / 4096 - 224) * 4096 + (128 + c / 64 % 64 - 128) * 64 +
            (128 + c % 64 - 128) = c := by
          have e1 : c / 64 / 64 = c / 4096 := by
            rw [Nat.div_div_eq_div_mul]
          omega
        rw [hval]
        rw [if_pos (by simp only [Bool.and_eq_true, Bool.or_eq_true,
          decide_eq_true_eq]; omega)]
      · rw [if_neg h3]
        have hcont2 : isCont (128 + c / 4096 % 64) = true := by
          simp only [isCont, Bool.and_eq_true, decide_eq_true_eq]; omega
        have hcont3 : isCont (128 + c / 64 % 64) = true := by
          simp only [isCont, Bool.and_eq_true, decide_eq_true_eq]; omega
        have hcont4 : isCont (128 + c % 64) = true := by
          simp only [isCont, Bool.and_eq_true, decide_eq_true_eq]; omega
        rw [List.cons_append, List.cons_append, List.cons_append,
          List.cons_append, List.nil_append, utf8Decode.eq_def]
        simp only []
        rw [if_neg (by omega), if_neg (by omega), if_neg (by omega)]
        rw [if_pos (by rw [hcont2, hcont3, hcont4]; rfl)]
        have hval : (240 + c / 262144 - 240) * 262144 + (128 + c / 4096 % 64 - 128) * 4096 +
            (128 + c / 64 % 64 - 128) * 64 + (128 + c % 64 - 128) = c := by
          have e1 : c / 64 / 64 = c / 4096 := by rw [Nat.div_div_eq_div_mul]
          have e2 : c / 4096 / 64 = c / 262144 := by rw [Nat.div_div_eq_div_mul]
          omega
        rw [hval]
        rw [if_pos (by simp only [Bool.and_eq_true, decide_eq_true_eq]; omega)]

/-- UTF-8 decoding inverts UTF-8 encoding on valid scalar sequences. -/
theorem utf8_roundtrip : ∀ cs, (∀ c ∈ cs, c < 1114112 ∧ ¬(55296 ≤ c ∧ c < 57344)) →
    utf8Decode (utf8Encode cs) = cs := by
  intro cs
  induction cs with
  | nil => intro _; rfl
  | cons c cs' ih =>
    intro h
    have hc := h c (List.mem_cons_self _ _)
    rw [utf8Encode, List.flatMap_cons]
    rw [utf8Decode_encodeChar c _ hc.1 hc.2]
    have htail : utf8Decode (utf8Encode cs') = cs' :=
      ih (fun x hx => h x (List.mem_cons_of_mem _ hx))
    rw [show utf8Encode cs' = cs'.flatMap utf8EncodeChar from rfl] at htail
    rw [htail]
/-! ### Well-formedness of rendered JSON -/

/-- A non-surrogate BMP unit may start any well-formed tail. -/
theorem wfU_cons (c : Nat) (t : List Nat) (hh : isHigh c = false)
    (hl : isLow c = false) (hc : c < 65536) (ht : wfU t = true) :
    wfU (c :: t) = true := by
  cases t with
  | nil => simp [wfU, hh, hl, hc]
  | cons c2 t' =>
    rw [wfU, if_neg (by simp [hh])]
    simp [hl, hc, ht]

/-- A surrogate pair may start any well-formed tail. -/
theorem wfU_pair_cons (c c2 : Nat) (t : List Nat) (hh : isHigh c = true)
    (hl : isLow c2 = true) (ht : wfU t = true) :
    wfU (c :: c2 :: t) = true := by
  rw [wfU, if_pos hh]
  simp [hl, ht]

/-- Well-formed UTF-16 is closed under concatenation. -/
theorem wfU_append : ∀ a b, wfU a = true → wfU b = true → wfU (a ++ b) = true := by
  intro a
  induction a using wfU.induct with
  | case1 => intro b _ hb; simpa using hb
  | case2 c =>
    intro b ha hb
    simp only [wfU, Bool.and_eq_true, Bool.not_eq_true', Bool.or_eq_false_iff,
      decide_eq_true_eq] at ha
    exact wfU_cons c b ha.1.1 ha.1.2 ha.2 hb
  | case3 c c2 rest hhigh ih =>
    intro b ha hb
    rw [wfU, if_pos hhigh, Bool.and_eq_true] at ha
    exact wfU_pair_cons c c2 (rest ++ b) hhigh ha.1 (ih b ha.2 hb)
  | case4 c c2 rest hhigh ih =>
    intro b ha hb
    have hh : isHigh c = false := by
      by_contra hx
      rw [Bool.not_eq_false] at hx
      exact hhigh hx
    rw [wfU, if_neg hhigh] at ha
    simp only [Bool.and_eq_true, Bool.not_eq_true', decide_eq_true_eq] at ha
    exact wfU_cons c ((c2 :: rest) ++ b) hh ha.1.1 ha.1.2 (ih b ha.2 hb)

/-- ASCII-range unit lists (in fact anything below the surrogates) are
well-formed UTF-16. -/
theorem wfU_ascii : ∀ l, (∀ c ∈ l, c < 55296) → wfU l = true := by
  intro l
  induction l with
  | nil => intro _; rfl
  | cons c t ih =>
    intro h
    have hc := h c (List.mem_cons_self _ _)
    exact wfU_cons c t (by simp [isHigh]; omega) (by simp [isLow]; omega)
      (by omega) (ih fun x hx => h x (List.mem_cons_of_mem _ hx))

/-- Hex digit characters are lowercase ASCII. -/
theorem hexDigitChar_range (d : Nat) (hd : d < 16) :
    48 ≤ hexDigitChar d ∧ hexDigitChar d ≤ 102 := by
  rw [hexDigitChar]
  split <;> omega

/-- A `\uXXXX` escape is ASCII, hence well-formed. -/
theorem wfU_uEsc (c : Nat) : wfU (uEsc c) = true := by
  apply wfU_ascii
  intro x hx
  simp only [uEsc, hex4, List.mem_cons, List.not_mem_nil, or_false] at hx
  rcases hx with h | h | h | h | h | h <;> subst h
  · omega
  · omega
  · exact lt_of_le_of_lt (hexDigitChar_range _ (Nat.mod_lt _ (by omega))).2 (by omega)
  · exact lt_of_le_of_lt (hexDigitChar_range _ (Nat.mod_lt _ (by omega))).2 (by omega)
  · exact lt_of_le_of_lt (hexDigitChar_range _ (Nat.mod_lt _ (by omega))).2 (by omega)
  · exact lt_of_le_of_lt (hexDigitChar_range _ (Nat.mod_lt _ (by omega))).2 (by omega)

/-- The escape of a non-surrogate BMP unit is well-formed. -/
theorem wfU_escChar (c : Nat) (hh : isHigh c = false) (hl : isLow c = false)
    (hc : c < 65536) : wfU (escChar c) = true := by
  rw [escChar]
  split_ifs with h1 h2 h3 h4 h5 h6 h7 h8
  · decide
  · decide
  · decide
  · decide
  · decide
  · decide
  · decide
  · exact wfU_uEsc c
  · exact wfU_cons c [] hh hl hc rfl

/-- All digits produced by `natDecAux` are decimal digit characters, provided
the accumulator holds only such. -/
theorem natDecAux_digits : ∀ fuel n acc, (∀ c ∈ acc, 48 ≤ c ∧ c ≤ 57) →
    ∀ c ∈ natDecAux fuel n acc, 48 ≤ c ∧ c ≤ 57 := by
  intro fuel
  induction fuel with
  | zero =>
    intro n acc hacc c hc
    cases n with
    | zero => exact hacc c hc
    | succ m => exact hacc c hc
  | succ f ih =>
    intro n acc hacc c hc
    cases n with
    | zero => exact hacc c hc
    | succ m =>
      rw [natDecAux] at hc
      refine ih _ _ ?_ c hc
      intro x hx
      rcases List.mem_cons.mp hx with h | h
      · subst h; constructor <;> omega
      · exact hacc x h

/-- All characters of `natDec` are decimal digit characters. -/
theorem natDec_digits : ∀ n c, c ∈ natDec n → 48 ≤ c ∧ c ≤ 57 := by
  intro n c hc
  rw [natDec] at hc
  split at hc
  · simp at hc; omega
  · exact natDecAux_digits n n [] (by simp) c hc

/-- An integer literal is ASCII, hence well-formed. -/
theorem wfU_intLit (n : Int) : wfU (intLit n) = true := by
  apply wfU_ascii
  intro x hx
  rw [intLit] at hx
  split at hx
  · rcases List.mem_cons.mp hx with h | h
    · omega
    · have := natDec_digits _ _ h; omega
  · have := natDec_digits _ _ hx; omega

/-- The rendering of a JSON value whose strings are JavaScript strings is
well-formed UTF-16. -/
theorem wfU_escapeBody : ∀ s, WfStr s → wfU (escapeBody s) = true := by
  intro s
  induction s using escapeBody.induct with
  | case1 => intro _; rfl
  | case2 c hsur =>
    intro _
    rw [escapeBody, if_pos hsur]
    exact wfU_uEsc c
  | case3 c hsur =>
    intro h
    have hc : c < 65536 := h c (List.mem_cons_self _ _)
    rw [escapeBody, if_neg hsur]
    simp only [Bool.or_eq_true, not_or, Bool.not_eq_true] at hsur
    exact wfU_escChar c hsur.1 hsur.2 hc
  | case4 c c2 rest hpair ih =>
    intro h
    rw [escapeBody, if_pos hpair]
    rw [Bool.and_eq_true] at hpair
    exact wfU_pair_cons c c2 _ hpair.1 hpair.2
      (ih fun x hx => h x (List.mem_cons_of_mem _ (List.mem_cons_of_mem _ hx)))
  | case5 c c2 rest hpair ih =>
    intro h
    have hc : c < 65536 := h c (List.mem_cons_self _ _)
    rw [escapeBody, if_neg hpair]
    apply wfU_append
    · split
      · exact wfU_uEsc c
      · rename_i hno
        simp only [Bool.or_eq_true, not_or, Bool.not_eq_true] at hno
        exact wfU_escChar c hno.1 hno.2 hc
    · exact ih fun x hx => h x (List.mem_cons_of_mem _ hx)

/-- A rendered string literal is well-formed UTF-16. -/
theorem wfU_quoteString (s : List Nat) (h : WfStr s) :
    wfU (quoteString s) = true := by
  rw [quoteString]
  exact wfU_cons 34 _ (by decide) (by decide) (by decide)
    (wfU_append _ _ (wfU_escapeBody s h) (by decide))

/-- The rendering of a JSON value whose strings are all JavaScript strings
is well-formed UTF-16. -/
theorem wfU_jsonRender : ∀ v, wfJson v → wfU (jsonRender v) = true := by
  refine jsonRender.induct
    (fun v => wfJson v → wfU (jsonRender v) = true)
    (fun ms => wfMembers ms → wfU (renderMembers ms) = true)
    (fun es => wfElems es → wfU (renderElems es) = true)
    ?_ ?_ ?_ ?_ ?_ ?_ ?_ ?_ ?_ ?_ ?_ ?_ ?_
  · intro _; decide
  · intro _; decide
  · intro _; decide
  · intro n _; exact wfU_intLit n
  · intro s h; exact wfU_quoteString s (by simpa [wfJson] using h)
  · intro _; decide
  · intro e es ih1 ih3 h
    rw [wfJson] at h
    rw [wfElems] at h
    rw [jsonRender]
    refine wfU_cons 91 _ (by decide) (by decide) (by decide) ?_
    exact wfU_append _ _ (wfU_append _ _ (ih1 h.1) (ih3 h.2)) (by decide)
  · intro _; decide
  · intro m ms ih1 ih2 h
    rw [wfJson] at h
    rw [wfMembers] at h
    rw [jsonRender]
    refine wfU_cons 123 _ (by decide) (by decide) (by decide) ?_
    refine wfU_append _ _ (wfU_append _ _ (wfU_append _ _
      (wfU_quoteString _ h.1.1)
      (wfU_cons 58 _ (by decide) (by decide) (by decide) (ih1 h.1.2)))
      (ih2 h.2)) (by decide)
  · intro _; rfl
  · intro e es ih1 ih3 h
    rw [wfElems] at h
    rw [renderElems]
    refine wfU_cons 44 _ (by decide) (by decide) (by decide) ?_
    exact wfU_append _ _ (ih1 h.1) (ih3 h.2)
  · intro _; rfl
  · intro m ms ih1 ih2 h
    rw [wfMembers] at h
    rw [renderMembers]
    refine wfU_cons 44 _ (by decide) (by decide) (by decide) ?_
    exact wfU_append _ _ (wfU_append _ _
      (wfU_quoteString _ h.1.1)
      (wfU_cons 58 _ (by decide) (by decide) (by decide) (ih1 h.1.2)))
      (ih2 h.2)
/-! ### Parser inversion: strings and integer literals -/

/-- `hexValU` inverts `hexDigitChar` on hex digit values. -/
theorem hexValU_hexDigitChar (d : Nat) (hd : d < 16) :
    hexValU (hexDigitChar d) = some d := by
  rw [hexDigitChar, hexValU]
  by_cases h : d < 10
  · rw [if_pos h]
    rw [if_pos (by simp only [Bool.and_eq_true, decide_eq_true_eq]; omega)]
    congr 1
    omega
  · rw [if_neg h, if_neg (by simp only [Bool.and_eq_true, decide_eq_true_eq]; omega)]
    rw [if_pos (by simp only [Bool.and_eq_true, decide_eq_true_eq]; omega)]
    congr 1
    omega

/-- `skipWs` is the identity on input starting with a non-whitespace unit. -/
theorem skipWs_not (c : Nat) (r : List Nat) (h : isWsU c = false) :
    skipWs (c :: r) = c :: r := by
  rw [skipWs, if_neg (by simp [h])]

/-- A closing quote ends the string body. -/
theorem parseStrBody_quote (acc rest : List Nat) :
    parseStrBody acc (34 :: rest) = some (acc.reverse, rest) := by
  rw [parseStrBody.eq_def]
  simp only []
  rw [if_pos trivial]

/-- A literal (unescaped) unit is consumed onto the accumulator. -/
theorem parseStrBody_plain (acc : List Nat) (c : Nat) (t : List Nat)
    (h34 : c ≠ 34) (h92 : c ≠ 92) (h32 : ¬ c < 32) :
    parseStrBody acc (c :: t) = parseStrBody (c :: acc) t := by
  rw [parseStrBody.eq_def]
  simp only []
  rw [if_neg h34, if_neg h92, if_neg h32]

/-- A single-character escape is consumed onto the accumulator. -/
theorem parseStrBody_esc (acc : List Nat) (e ch : Nat) (t : List Nat)
    (he : e ≠ 117) (hu : unescapeU e = some ch) :
    parseStrBody acc (92 :: e :: t) = parseStrBody (ch :: acc) t := by
  rw [parseStrBody.eq_def]
  simp only []
  rw [if_pos trivial]
  rw [if_neg he, hu]
  rw [if_neg (by decide)]

/-- A `\uXXXX` escape is consumed onto the accumulator. -/
theorem parseStrBody_u (acc : List Nat) (a b c2 d va vb vc vd : Nat) (t : List Nat)
    (ha : hexValU a = some va) (hb : hexValU b = some vb)
    (hc : hexValU c2 = some vc) (hd : hexValU d = some vd) :
    parseStrBody acc (92 :: 117 :: a :: b :: c2 :: d :: t) =
      parseStrBody ((((va * 16 + vb) * 16 + vc) * 16 + vd) :: acc) t := by
  rw [parseStrBody.eq_def]
  simp only []
  rw [if_neg (by decide), if_pos trivial, ha, hb, hc, hd]
  rw [if_pos trivial]

/-- Parsing one escaped-or-literal unit of a string body pushes exactly that
unit onto the accumulator. -/
theorem parseStrBody_one (c : Nat) (acc t : List Nat) (hc : c < 65536) :
    parseStrBody acc ((if isHigh c || isLow c then uEsc c else escChar c) ++ t) =
      parseStrBody (c :: acc) t := by
  have huesc : parseStrBody acc (uEsc c ++ t) = parseStrBody (c :: acc) t := by
    rw [uEsc, hex4]
    rw [List.cons_append, List.cons_append, List.cons_append, List.cons_append,
      List.cons_append, List.cons_append, List.nil_append]
    rw [parseStrBody_u acc _ _ _ _ _ _ _ _ t
      (hexValU_hexDigitChar _ (Nat.mod_lt _ (by omega)))
      (hexValU_hexDigitChar _ (Nat.mod_lt _ (by omega)))
      (hexValU_hexDigitChar _ (Nat.mod_lt _ (by omega)))
      (hexValU_hexDigitChar _ (Nat.mod_lt _ (by omega)))]
    have hval : ((c / 4096 % 16 * 16 + c / 256 % 16) * 16 + c / 16 % 16) * 16 + c % 16 = c := by
      have e1 : c / 16 / 16 = c / 256 := by rw [Nat.div_div_eq_div_mul]
      have e2 : c / 256 / 16 = c / 4096 := by rw [Nat.div_div_eq_div_mul]
      omega
    rw [hval]
  split
  · exact huesc
  · rw [escChar]
    split_ifs with h1 h2 h3 h4 h5 h6 h7 h8
    · subst h1
      rw [List.cons_append, List.cons_append, List.nil_append,
        parseStrBody_esc acc 34 34 t (by decide) (by decide)]
    · subst h2
      rw [List.cons_append, List.cons_append, List.nil_append,
        parseStrBody_esc acc 92 92 t (by decide) (by decide)]
    · subst h3
      rw [List.cons_append, List.cons_append, List.nil_append,
        parseStrBody_esc acc 98 8 t (by decide) (by decide)]
    · subst h4
      rw [List.cons_append, List.cons_append, List.nil_append,
        parseStrBody_esc acc 116 9 t (by decide) (by decide)]
    · subst h5
      rw [List.cons_append, List.cons_append, List.nil_append,
        parseStrBody_esc acc 110 10 t (by decide) (by decide)]
    · subst h6
      rw [List.cons_append, List.cons_append, List.nil_append,
        parseStrBody_esc acc 102 12 t (by decide) (by decide)]
    · subst h7
      rw [List.cons_append, List.cons_append, List.nil_append,
        parseStrBody_esc acc 114 13 t (by decide) (by decide)]
    · exact huesc
    · rw [List.cons_append, List.nil_append,
        parseStrBody_plain acc c t h1 h2 h8]

/-- Parsing the escaped body of a JavaScript string up to the closing quote
recovers the string. -/
theorem parseStrBody_escapeBody : ∀ s acc rest, WfStr s →
    parseStrBody acc (escapeBody s ++ 34 :: rest) =
      some (acc.reverse ++ s, rest) := by
  intro s
  induction s using escapeBody.induct with
  | case1 =>
    intro acc rest _
    rw [escapeBody, List.nil_append, parseStrBody_quote, List.append_nil]
  | case2 c hsur =>
    intro acc rest h
    have hc : c < 65536 := h c (List.mem_cons_self _ _)
    rw [escapeBody, if_pos hsur]
    have hone := parseStrBody_one c acc (34 :: rest) hc
    rw [if_pos hsur] at hone
    rw [hone, parseStrBody_quote]
    simp
  | case3 c hsur =>
    intro acc rest h
    have hc : c < 65536 := h c (List.mem_cons_self _ _)
    rw [escapeBody, if_neg hsur]
    have hone := parseStrBody_one c acc (34 :: rest) hc
    rw [if_neg hsur] at hone
    rw [hone, parseStrBody_quote]
    simp
  | case4 c c2 rest' hpair ih =>
    intro acc rest h
    rw [escapeBody, if_pos hpair]
    rw [Bool.and_eq_true] at hpair
    have hcb : 55296 ≤ c ∧ c < 56320 := by simpa [isHigh] using hpair.1
    have hc2b : 56320 ≤ c2 ∧ c2 < 57344 := by simpa [isLow] using hpair.2
    rw [List.cons_append, List.cons_append,
      parseStrBody_plain acc c _ (by omega) (by omega) (by omega),
      parseStrBody_plain (c :: acc) c2 _ (by omega) (by omega) (by omega)]
    rw [ih (c2 :: c :: acc) rest
      (fun x hx => h x (List.mem_cons_of_mem _ (List.mem_cons_of_mem _ hx)))]
    simp
  | case5 c c2 rest' hpair ih =>
    intro acc rest h
    have hc : c < 65536 := h c (List.mem_cons_self _ _)
    rw [escapeBody, if_neg hpair, List.append_assoc]
    rw [parseStrBody_one c acc _ hc]
    rw [ih (c :: acc) rest (fun x hx => h x (List.mem_cons_of_mem _ hx))]
    simp

/-- `takeDigits` splits a digit prefix exactly at a non-digit boundary. -/
theorem takeDigits_append : ∀ ds rest, (∀ c ∈ ds, isDigitU c = true) →
    notDigitStart rest → takeDigits (ds ++ rest) = (ds, rest) := by
  intro ds
  induction ds with
  | nil =>
    intro rest _ hr
    cases rest with
    | nil => rfl
    | cons c cs =>
      rw [notDigitStart] at hr
      rw [List.nil_append, takeDigits, if_neg (by simp [hr])]
  | cons d ds' ih =>
    intro rest h hr
    rw [List.cons_append, takeDigits,
      if_pos (by simp [h d (List.mem_cons_self _ _)])]
    rw [ih rest (fun x hx => h x (List.mem_cons_of_mem _ hx)) hr]

/-- `natDecAux` only prepends to its accumulator. -/
theorem natDecAux_append : ∀ fuel n acc,
    natDecAux fuel n acc = natDecAux fuel n [] ++ acc := by
  intro fuel
  induction fuel with
  | zero =>
    intro n acc
    cases n with
    | zero => rfl
    | succ m => rfl
  | succ f ih =>
    intro n acc
    cases n with
    | zero => rfl
    | succ m =>
      rw [natDecAux, natDecAux, ih ((m + 1) / 10) ([48 + (m + 1) % 10]),
        ih ((m + 1) / 10) ((48 + (m + 1) % 10) :: acc), List.append_assoc]
      rfl

/-- Folding the decimal-value step over `natDecAux fuel n []` evaluates to
`n`, shifted past an arbitrary prefix value. -/
theorem natDecAux_val : ∀ fuel n, n ≤ fuel → ∀ a : Nat,
    (natDecAux fuel n []).foldl (fun acc c => acc * 10 + (c - 48)) a =
      a * 10 ^ (natDecAux fuel n []).length + n := by
  intro fuel
  induction fuel with
  | zero =>
    intro n hn a
    have : n = 0 := by omega
    subst this
    simp [natDecAux]
  | succ f ih =>
    intro n hn a
    cases n with
    | zero => simp [natDecAux]
    | succ m =>
      rw [natDecAux, natDecAux_append]
      have hle : (m + 1) / 10 ≤ f := by
        have := Nat.div_lt_self (Nat.succ_pos m) (by omega : 1 < 10)
        omega
      rw [List.foldl_append, ih _ hle a, List.length_append]
      simp only [List.foldl_cons, List.foldl_nil, List.length_cons,
        List.length_nil]
      have hsub : 48 + (m + 1) % 10 - 48 = (m + 1) % 10 := by omega
      rw [hsub, pow_succ, ← mul_assoc]
      have hdm := Nat.div_add_mod (m + 1) 10
      generalize (a * 10 ^ (natDecAux f ((m + 1) / 10) []).length) = P
      omega

/-- The decimal value of `natDec n` is `n`. -/
theorem digitsVal_natDec (n : Nat) : digitsVal (natDec n) = n := by
  rw [natDec]
  split
  · rename_i hn
    subst hn
    rfl
  · rw [digitsVal]
    rw [natDecAux_val n n (le_refl n) 0]
    simp

/-- `natDec` never returns the empty list. -/
theorem natDec_ne_nil (n : Nat) : natDec n ≠ [] := by
  rw [natDec]
  split
  · simp
  · rename_i hn
    cases n with
    | zero => simp at hn
    | succ m =>
      rw [natDecAux, natDecAux_append]
      simp

/-- `parseIntLit` inverts `intLit` at a non-digit boundary. -/
theorem parseIntLit_intLit (n : Int) (rest : List Nat) (hr : notDigitStart rest) :
    parseIntLit (intLit n ++ rest) = some (n, rest) := by
  have hdig : ∀ c ∈ natDec n.natAbs, isDigitU c = true := by
    intro c hc
    have := natDec_digits _ _ hc
    simp only [isDigitU, Bool.and_eq_true, decide_eq_true_eq]
    omega
  rw [intLit]
  split
  · rename_i hn
    rw [List.cons_append, parseIntLit, if_pos rfl]
    rw [takeDigits_append _ _ hdig hr]
    rcases hne : natDec n.natAbs with _ | ⟨d, t⟩
    · exact absurd hne (natDec_ne_nil _)
    · simp only []
      have hv : ((digitsVal (d :: t) : Int)) = n.natAbs := by
        rw [← hne, digitsVal_natDec]
      rw [hv]
      have habs : -((n.natAbs : Nat) : Int) = n := by omega
      rw [habs]
  · rename_i hn
    rcases hne : natDec n.natAbs with _ | ⟨d, t⟩
    · exact absurd hne (natDec_ne_nil _)
    · have hd45 : d ≠ 45 := by
        have := natDec_digits n.natAbs d (by rw [hne]; exact List.mem_cons_self _ _)
        omega
      rw [List.cons_append, parseIntLit, if_neg hd45]
      rw [← List.cons_append, ← hne]
      rw [takeDigits_append _ _ hdig hr]
      rw [hne]
      simp only []
      have hv : ((digitsVal (d :: t) : Int)) = n := by
        rw [← hne, digitsVal_natDec]
        omega
      rw [hv]
/-! ### Parser inversion: values, arrays, objects -/

/-- Every JSON value needs at least one unit of parser fuel. -/
theorem jsonFuel_pos : ∀ v, 1 ≤ jsonFuel v := by
  intro v
  cases v with
  | null => simp [jsonFuel]
  | bool b => simp [jsonFuel]
  | num n => simp [jsonFuel]
  | str s => simp [jsonFuel]
  | arr es => cases es <;> simp [jsonFuel]
  | obj ms => cases ms <;> simp [jsonFuel]

/-- Element tails need at least one unit of parser fuel. -/
theorem elemsFuel_pos : ∀ es, 1 ≤ elemsFuel es := by
  intro es
  cases es <;> simp [elemsFuel]

/-- Member tails need at least one unit of parser fuel. -/
theorem membersFuel_pos : ∀ ms, 1 ≤ membersFuel ms := by
  intro ms
  cases ms <;> simp [membersFuel]

/-- A rendered element tail followed by a closing bracket starts with a
comma or the bracket, never a digit. -/
theorem ndsElems (es : List Json) (rest : List Nat) :
    notDigitStart (renderElems es ++ 93 :: rest) := by
  cases es with
  | nil => rw [renderElems, List.nil_append, notDigitStart]; decide
  | cons e es' => rw [renderElems, List.cons_append, notDigitStart]; decide

/-- A rendered member tail followed by a closing brace starts with a comma
or the brace, never a digit. -/
theorem ndsMembers (ms : List (List Nat × Json)) (rest : List Nat) :
    notDigitStart (renderMembers ms ++ 125 :: rest) := by
  cases ms with
  | nil => rw [renderMembers, List.nil_append, notDigitStart]; decide
  | cons m ms' => rw [renderMembers, List.cons_append, notDigitStart]; decide

/-- Every rendering starts with a unit that is not whitespace and not a
closing bracket or brace. -/
theorem render_head : ∀ v, ∃ c t, jsonRender v = c :: t ∧ isWsU c = false ∧
    c ≠ 93 ∧ c ≠ 125 := by
  intro v
  cases v with
  | null => exact ⟨110, _, by rw [jsonRender], by decide, by decide, by decide⟩
  | bool b =>
    cases b with
    | true => exact ⟨116, _, by rw [jsonRender], by decide, by decide, by decide⟩
    | false => exact ⟨102, _, by rw [jsonRender], by decide, by decide, by decide⟩
  | num n =>
    rw [jsonRender, intLit]
    split
    · exact ⟨45, _, rfl, by decide, by decide, by decide⟩
    · rcases hne : natDec n.natAbs with _ | ⟨d, t⟩
      · exact absurd hne (natDec_ne_nil _)
      · have hd : 48 ≤ d ∧ d ≤ 57 :=
          natDec_digits _ _ (by rw [hne]; exact List.mem_cons_self _ _)
        exact ⟨d, t, rfl, by simp [isWsU]; omega, by omega, by omega⟩
  | str s =>
    exact ⟨34, _, by rw [jsonRender, quoteString], by decide, by decide, by decide⟩
  | arr es =>
    cases es with
    | nil => exact ⟨91, _, by rw [jsonRender], by decide, by decide, by decide⟩
    | cons e es' => exact ⟨91, _, by rw [jsonRender], by decide, by decide, by decide⟩
  | obj ms =>
    cases ms with
    | nil => exact ⟨123, _, by rw [jsonRender], by decide, by decide, by decide⟩
    | cons m ms' => exact ⟨123, _, by rw [jsonRender], by decide, by decide, by decide⟩

/-- The recursive-descent parser inverts `JSON.stringify` on every value
whose strings are JavaScript strings, given sufficient fuel: the four
components cover values, element tails, member tails, and single members. -/
theorem parse_render_all : ∀ fuel,
    (∀ v rest, wfJson v → jsonFuel v ≤ fuel → notDigitStart rest →
      parseVal fuel (jsonRender v ++ rest) = some (v, rest)) ∧
    (∀ es rest, wfElems es → elemsFuel es ≤ fuel →
      parseElems fuel (renderElems es ++ 93 :: rest) = some (es, rest)) ∧
    (∀ ms rest, wfMembers ms → membersFuel ms ≤ fuel →
      parseMembersTail fuel (renderMembers ms ++ 125 :: rest) = some (ms, rest)) ∧
    (∀ k v rest, WfStr k → wfJson v → jsonFuel v + 1 ≤ fuel → notDigitStart rest →
      parseMember fuel (34 :: (escapeBody k ++ (34 :: (58 :: (jsonRender v ++ rest))))) =
        some ((k, v), rest)) := by
  intro fuel
  induction fuel using Nat.strong_induction_on with
  | _ fuel ih =>
  cases fuel with
  | zero =>
    refine ⟨?_, ?_, ?_, ?_⟩
    · intro v rest hwf hfu hnds
      have := jsonFuel_pos v
      omega
    · intro es rest hwf hfu
      have := elemsFuel_pos es
      omega
    · intro ms rest hwf hfu
      have := membersFuel_pos ms
      omega
    · intro k v rest hk hwf hfu hnds
      have := jsonFuel_pos v
      omega
  | succ f =>
    obtain ⟨Pf, Qf, Rf, Sf⟩ := ih f (Nat.lt_succ_self f)
    refine ⟨?_, ?_, ?_, ?_⟩
    · intro v rest hwf hfu hnds
      cases v with
      | null =>
        rw [jsonRender]
        simp only [List.cons_append, List.nil_append]
        rw [parseVal, skipWs_not _ _ (by decide)]
        simp only []
        rw [if_pos trivial]
      | bool b =>
        cases b with
        | true =>
          rw [jsonRender]
          simp only [List.cons_append, List.nil_append]
          rw [parseVal, skipWs_not _ _ (by decide)]
          simp only []
          rw [if_neg (by decide), if_pos trivial]
        | false =>
          rw [jsonRender]
          simp only [List.cons_append, List.nil_append]
          rw [parseVal, skipWs_not _ _ (by decide)]
          simp only []
          rw [if_neg (by decide), if_neg (by decide), if_pos trivial]
      | num n =>
        have hsh : ∃ c0 t0, intLit n = c0 :: t0 ∧ (c0 = 45 ∨ (48 ≤ c0 ∧ c0 ≤ 57)) := by
          rw [intLit]
          split
          · exact ⟨45, _, rfl, Or.inl rfl⟩
          · rcases hne : natDec n.natAbs with _ | ⟨d, t⟩
            · exact absurd hne (natDec_ne_nil _)
            · exact ⟨d, t, rfl,
                Or.inr (natDec_digits _ _ (by rw [hne]; exact List.mem_cons_self _ _))⟩
        obtain ⟨c0, t0, heq, hd⟩ := hsh
        rw [jsonRender, heq, List.cons_append, parseVal,
          skipWs_not _ _ (by rcases hd with h | h <;> simp [isWsU] <;> omega)]
        simp only []
        rw [if_neg (by rcases hd with h | h <;> omega),
          if_neg (by rcases hd with h | h <;> omega),
          if_neg (by rcases hd with h | h <;> omega),
          if_neg (by rcases hd with h | h <;> omega),
          if_neg (by rcases hd with h | h <;> omega),
          if_neg (by rcases hd with h | h <;> omega)]
        rw [if_pos (by
          rcases hd with h | h
          · exact Or.inl h
          · exact Or.inr (by simp only [isDigitU, Bool.and_eq_true,
              decide_eq_true_eq]; omega))]
        rw [← List.cons_append, ← heq, parseIntLit_intLit n rest hnds]
      | str s =>
        rw [jsonRender, quoteString]
        simp only [List.cons_append, List.nil_append, List.append_assoc]
        rw [parseVal, skipWs_not _ _ (by decide)]
        simp only []
        rw [if_neg (by decide), if_neg (by decide), if_neg (by decide),
          if_pos trivial]
        rw [parseStrBody_escapeBody s [] rest (by rwa [wfJson] at hwf)]
        simp only [List.reverse_nil, List.nil_append]
      | arr es =>
        cases es with
        | nil =>
          rw [jsonRender]
          simp only [List.cons_append, List.nil_append]
          rw [parseVal, skipWs_not _ _ (by decide)]
          simp only []
          rw [if_neg (by decide), if_neg (by decide), if_neg (by decide),
            if_neg (by decide), if_pos trivial]
          rw [skipWs_not _ _ (by decide)]
          simp only []
          rw [if_pos trivial]
        | cons e es' =>
          rw [wfJson, wfElems] at hwf
          rw [jsonFuel] at hfu
          rw [jsonRender]
          simp only [List.cons_append, List.nil_append, List.append_assoc]
          rw [parseVal, skipWs_not _ _ (by decide)]
          simp only []
          rw [if_neg (by decide), if_neg (by decide), if_neg (by decide),
            if_neg (by decide), if_pos trivial]
          obtain ⟨c0, t0, he, hws, h93, h125⟩ := render_head e
          rw [he, List.cons_append, skipWs_not _ _ hws]
          simp only []
          rw [if_neg h93, ← List.cons_append, ← he]
          rw [Pf e (renderElems es' ++ 93 :: rest) hwf.1 (by omega)
            (ndsElems es' rest)]
          simp only []
          rw [Qf es' rest hwf.2 (by omega)]
      | obj ms =>
        cases ms with
        | nil =>
          rw [jsonRender]
          simp only [List.cons_append, List.nil_append]
          rw [parseVal, skipWs_not _ _ (by decide)]
          simp only []
          rw [if_neg (by decide), if_neg (by decide), if_neg (by decide),
            if_neg (by decide), if_neg (by decide), if_pos trivial]
          rw [skipWs_not _ _ (by decide)]
          simp only []
          rw [if_pos trivial]
        | cons m ms' =>
          rw [wfJson, wfMembers] at hwf
          rw [jsonFuel] at hfu
          rw [jsonRender, quoteString]
          simp only [List.cons_append, List.nil_append, List.append_assoc]
          rw [parseVal, skipWs_not _ _ (by decide)]
          simp only []
          rw [if_neg (by decide), if_neg (by decide), if_neg (by decide),
            if_neg (by decide), if_neg (by decide), if_pos trivial]
          rw [skipWs_not _ _ (by decide)]
          simp only []
          rw [if_neg (by decide)]
          rw [Sf m.1 m.2 (renderMembers ms' ++ 125 :: rest) hwf.1.1 hwf.1.2
            (by omega) (ndsMembers ms' rest)]
          simp only []
          rw [Rf ms' rest hwf.2 (by omega)]
    · intro es rest hwf hfu
      cases es with
      | nil =>
        rw [renderElems, List.nil_append, parseElems,
          skipWs_not _ _ (by decide)]
        simp only []
        rw [if_pos trivial]
      | cons e es' =>
        rw [wfElems] at hwf
        rw [elemsFuel] at hfu
        rw [renderElems]
        simp only [List.cons_append, List.nil_append, List.append_assoc]
        rw [parseElems, skipWs_not _ _ (by decide)]
        simp only []
        rw [if_neg (by decide), if_pos trivial]
        rw [Pf e (renderElems es' ++ 93 :: rest) hwf.1 (by omega)
          (ndsElems es' rest)]
        simp only []
        rw [Qf es' rest hwf.2 (by omega)]
    · intro ms rest hwf hfu
      cases ms with
      | nil =>
        rw [renderMembers, List.nil_append, parseMembersTail,
          skipWs_not _ _ (by decide)]
        simp only []
        rw [if_pos trivial]
      | cons m ms' =>
        rw [wfMembers] at hwf
        rw [membersFuel] at hfu
        rw [renderMembers, quoteString]
        simp only [List.cons_append, List.nil_append, List.append_assoc]
        rw [parseMembersTail, skipWs_not _ _ (by decide)]
        simp only []
        rw [if_neg (by decide), if_pos trivial]
        rw [Sf m.1 m.2 (renderMembers ms' ++ 125 :: rest) hwf.1.1 hwf.1.2
          (by omega) (ndsMembers ms' rest)]
        simp only []
        rw [Rf ms' rest hwf.2 (by omega)]
    · intro k v rest hk hwf hfu hnds
      rw [parseMember, skipWs_not _ _ (by decide)]
      simp only []
      rw [if_pos trivial]
      rw [parseStrBody_escapeBody k [] (58 :: (jsonRender v ++ rest)) hk]
      simp only [List.reverse_nil, List.nil_append]
      rw [skipWs_not _ _ (by decide)]
      simp only []
      rw [if_pos trivial]
      rw [Pf v rest hwf (by omega) hnds]
/-! ### Fuel sufficiency and the top-level parse -/

/-- An integer literal is never empty. -/
theorem intLit_ne_nil (n : Int) : intLit n ≠ [] := by
  rw [intLit]
  split
  · simp
  · exact natDec_ne_nil _

/-- The fuel a value needs is bounded by the length of its rendering. -/
theorem jsonFuel_le_length : ∀ v, jsonFuel v ≤ (jsonRender v).length := by
  refine jsonRender.induct
    (fun v => jsonFuel v ≤ (jsonRender v).length)
    (fun ms => membersFuel ms ≤ (renderMembers ms).length + 1)
    (fun es => elemsFuel es ≤ (renderElems es).length + 1)
    ?_ ?_ ?_ ?_ ?_ ?_ ?_ ?_ ?_ ?_ ?_ ?_ ?_
  · simp [jsonFuel, jsonRender]
  · simp [jsonFuel, jsonRender]
  · simp [jsonFuel, jsonRender]
  · intro n
    rw [jsonFuel, jsonRender]
    have := intLit_ne_nil n
    exact Nat.one_le_iff_ne_zero.mpr (by simpa using this)
  · intro s
    rw [jsonFuel, jsonRender, quoteString]
    simp
  · simp [jsonFuel, jsonRender]
  · intro e es ih1 ih3
    rw [jsonFuel, jsonRender]
    simp only [List.length_cons, List.length_append]
    omega
  · simp [jsonFuel, jsonRender]
  · intro m ms ih1 ih2
    rw [jsonFuel, jsonRender, quoteString]
    simp only [List.length_cons, List.length_append]
    omega
  · simp [elemsFuel, renderElems]
  · intro e es ih1 ih3
    rw [elemsFuel, renderElems]
    simp only [List.length_cons, List.length_append]
    omega
  · simp [membersFuel, renderMembers]
  · intro m ms ih1 ih2
    rw [membersFuel, renderMembers, quoteString]
    simp only [List.length_cons, List.length_append]
    omega

/-- `JSON.parse` inverts `JSON.stringify` on values whose strings are
JavaScript strings. -/
theorem jsonParse_render (v : Json) (hwf : wfJson v) :
    jsonParse (jsonRender v) = some v := by
  rw [jsonParse]
  have hp := (parse_render_all ((jsonRender v).length + 1)).1 v [] hwf
    (by have := jsonFuel_le_length v; omega)
    (by rw [notDigitStart]; trivial)
  rw [List.append_nil] at hp
  rw [hp]
  simp [skipWs]
/-! ### Packet-shaped JSON: extraction and well-formedness -/

/-- Extracting the string list back out of a rendered hops array
(accumulator form of `List.mapM`). -/
theorem mapM_jstr_loop : ∀ (l : List (List Nat)) (acc : List (List Nat)),
    List.mapM.loop jstrOfJson (l.map Json.str) acc = some (acc.reverse ++ l) := by
  intro l
  induction l with
  | nil => intro acc; simp [List.mapM.loop]
  | cons h t ih =>
    intro acc
    rw [List.map_cons, List.mapM.loop]
    simp only [jstrOfJson]
    rw [show ∀ x : List (List Nat) → Option (List (List Nat)),
      (some h >>= fun b => x (b :: acc)) = x (h :: acc) from fun x => rfl]
    rw [ih (h :: acc)]
    simp

/-- `List.mapM` form of `mapM_jstr_loop`. -/
theorem mapM_jstr (l : List (List Nat)) :
    (l.map Json.str).mapM jstrOfJson = some l := by
  rw [List.mapM]
  rw [mapM_jstr_loop l []]
  rfl

/-- `ptOfStr` inverts `ptStr`. -/
theorem ptOfStr_ptStr : ∀ t, ptOfStr (ptStr t) = some t := by
  intro t
  cases t <;> rfl

/-- Field extraction recovers the packet from its JSON object form. -/
theorem packetOfJson_packetJson (p : MeshPacket) :
    packetOfJson (packetJsonWithSig p) = some p := by
  simp [packetOfJson, packetJsonWithSig, lookupLast, jstrOfJson, intOfJson,
    strListOfJson, ptOfStr_ptStr, mapM_jstr, mapM_jstr_loop, keyId, keyType,
    keySenderId, keyOriginalSenderId, keyTargetId, keyPayload, keyTimestamp,
    keyTtl, keyHops, keySignature]

/-- A unit list checked ASCII-by-ASCII is a JavaScript string. -/
theorem wfStr_dec (l : List Nat)
    (h : (l.all fun c => decide (c < 65536)) = true) : WfStr l := by
  intro c hc
  have := List.all_eq_true.mp h c hc
  simpa using this

/-- `wfElems` holds for a list of string values drawn from JavaScript
strings. -/
theorem wfElems_strs : ∀ l : List (List Nat), (∀ h ∈ l, WfStr h) →
    wfElems (l.map Json.str) := by
  intro l
  induction l with
  | nil => intro _; rw [List.map_nil, wfElems]; trivial
  | cons h t ih =>
    intro hl
    rw [List.map_cons, wfElems, wfJson]
    exact ⟨hl h (List.mem_cons_self _ _),
      ih fun x hx => hl x (List.mem_cons_of_mem _ hx)⟩

/-- Every wire type string is ASCII. -/
theorem wfStr_ptStr : ∀ t, WfStr (ptStr t) := by
  intro t
  cases t <;> exact wfStr_dec _ (by decide)

/-- The JSON object form of a well-formed packet is well-formed JSON. -/
theorem wfJson_packetJson (p : MeshPacket) (h : WfPacket p) :
    wfJson (packetJsonWithSig p) := by
  obtain ⟨h1, h2, h3, h4, h5, h6, h7⟩ := h
  rw [packetJsonWithSig]
  simp only [wfJson, wfMembers]
  exact ⟨⟨wfStr_dec _ (by decide), h1⟩,
    ⟨wfStr_dec _ (by decide), wfStr_ptStr p.type⟩,
    ⟨wfStr_dec _ (by decide), h2⟩,
    ⟨wfStr_dec _ (by decide), h3⟩,
    ⟨wfStr_dec _ (by decide), h4⟩,
    ⟨wfStr_dec _ (by decide), h5⟩,
    ⟨wfStr_dec _ (by decide), trivial⟩,
    ⟨wfStr_dec _ (by decide), trivial⟩,
    ⟨wfStr_dec _ (by decide), wfElems_strs p.hops h7⟩,
    ⟨wfStr_dec _ (by decide), h6⟩, trivial⟩

/-- The codec roundtrip on well-formed packets. -/
theorem decode_encode (p : MeshPacket) (hwf : WfPacket p) :
    decodePacket (encodePacket p) = some p := by
  have hwfj : wfJson (packetJsonWithSig p) := wfJson_packetJson p hwf
  have hwfu : wfU (jsonRender (packetJsonWithSig p)) = true :=
    wfU_jsonRender _ hwfj
  obtain ⟨h16, hsc⟩ := utf16_scalars_roundtrip _ hwfu
  have h8 : utf8Decode (utf8Encode (utf16ToScalars (jsonRender (packetJsonWithSig p)))) =
      utf16ToScalars (jsonRender (packetJsonWithSig p)) := utf8_roundtrip _ hsc
  rw [decodePacket, encodePacket, h8, h16, jsonParse_render _ hwfj]
  exact packetOfJson_packetJson p
/-- C8: for every well-formed packet `p` (each string field a JavaScript
string, i.e. UTF-16 code units below 0x10000) with `verifyPacket p = true`,
`decodePacket (encodePacket p)` returns a packet structurally equal to `p`,
and `verifyPacket` still holds on the decoded result. -/
theorem C8_encode_decode_roundtrip (p : MeshPacket) (hwf : WfPacket p)
    (hv : verifyPacket p = true) :
    decodePacket (encodePacket p) = some p ∧
      ∀ q, decodePacket (encodePacket p) = some q → verifyPacket q = true := by
  have hd := decode_encode p hwf
  refine ⟨hd, ?_⟩
  intro q hq
  rw [hd] at hq
  injection hq with h
  rw [← h]
  exact hv

/-- Witness: the roundtrip theorem applied to the concrete packet
`exPacket`, with both hypotheses discharged by evaluation. -/
theorem C8_encode_decode_roundtrip_witness :
    WfPacket exPacket ∧ verifyPacket exPacket = true ∧
      decodePacket (encodePacket exPacket) = some exPacket := by
  have hw : WfPacket exPacket := by
    refine ⟨wfStr_dec _ (by decide), wfStr_dec _ (by decide),
      wfStr_dec _ (by decide), wfStr_dec _ (by decide),
      wfStr_dec _ (by decide), wfStr_dec _ (by decide), ?_⟩
    intro h hh
    simp only [exPacket, createPacket] at hh
    simp only [List.mem_singleton] at hh
    rw [hh]
    exact wfStr_dec _ (by decide)
  exact ⟨hw, by decide,
    (C8_encode_decode_roundtrip exPacket hw (by decide)).1⟩
